import Mathlib

/-!
# Verification of the circuits simulation core

A shallow embedding of the circuit-graph data model (`src/Engine/CircuitGraph.cpp`),
the MNA solver (`src/Engine/MNASolver.cpp`) and the WDF engine
(`src/Engine/WDF/WDFCore.h`, `src/Engine/WDF/WDFEngine.cpp`), with proofs of the
behavioural properties stated in the specification.

Modelling conventions:
* C++ `int` identifiers become `Int` (id arithmetic never overflows in practice;
  `-1` is used by the source as an "invalid/ground" sentinel, so `Int` is kept).
* C++ `double` becomes `ℚ` where only finite values and their comparisons matter
  (matrix building, LU pivoting thresholds), and the four-state type `DVal`
  (finite rational / +∞ / −∞ / NaN) where the claims are about IEEE
  finite-vs-non-finite propagation and containment.  Rounding and overflow of
  in-range arithmetic are not modelled.
* C++ `std::map` lookups become total functions (`Int → Int` with identity
  default, matching the source's "missing key behaves as freshly inserted
  identity entry" pattern) or `Int → Option _`.
-/

namespace Circuits

/-- Component kinds, from `enum class ComponentType` in CircuitGraph.h. -/
inductive CompType
  | resistor | capacitor | inductor | potentiometer | cswitch
  | diode | diodePair | softClipper | vacuumTube
  | audioInput | audioOutput | ground
deriving DecidableEq, Repr

/-- `struct Node` (display name and 2-D position dropped: irrelevant to solving). -/
structure GNode where
  id : Int
  isGround : Bool := false
deriving DecidableEq, Repr

/-- `struct Wire`: an (ordered as stored, unordered in meaning) pair of node ids. -/
structure Wire where
  id : Int
  nodeA : Int
  nodeB : Int
deriving DecidableEq, Repr

/-- `struct Junction` (2-D position dropped). -/
structure Junction where
  nodeId : Int
deriving DecidableEq, Repr

/-- A circuit component (`CircuitComponent` and its subclasses).  The polymorphic
hierarchy is flattened into one record: each kind reads only its own fields.
`plateNode` is the vacuum tube's third terminal, `value` is the kind's scalar
value (resistance, capacitance, total potentiometer resistance), `wiper` the
potentiometer position, `closed` the switch state, `voltage`/`gain` the audio
input's current source voltage and scale. -/
structure Comp where
  id : Int
  ctype : CompType
  node1 : Int
  node2 : Int
  plateNode : Int := -1
  value : ℚ := 0
  wiper : ℚ := 1/2
  closed : Bool := false
  voltage : ℚ := 0
  gain : ℚ := 1
deriving DecidableEq, Repr

/-- `CircuitComponent::getAllNodes`, with the `VacuumTube` override
(grid, cathode, plate). -/
def Comp.getAllNodes (c : Comp) : List Int :=
  if c.ctype = CompType.vacuumTube then [c.node1, c.node2, c.plateNode]
  else [c.node1, c.node2]

/-- The topology model (`class CircuitGraph`). -/
structure CircuitGraph where
  nodes : List GNode
  components : List Comp
  wires : List Wire
  junctions : List Junction
  nextNodeId : Int := 0
  nextComponentId : Int := 0
  nextWireId : Int := 0
  groundNodeId : Int := -1
deriving DecidableEq, Repr

/-- `CircuitGraph::countWiresConnectedToNode`. -/
def countWiresConnectedToNode (g : CircuitGraph) (nodeId : Int) : Nat :=
  (g.wires.filter (fun w => w.nodeA == nodeId || w.nodeB == nodeId)).length

/-- `CircuitGraph::connectNodes`: coalesce with an existing wire between the
unordered pair if present, otherwise append a fresh wire.  Returns the wire id
and the updated graph. -/
def connectNodes (g : CircuitGraph) (nodeA nodeB : Int) : Int × CircuitGraph :=
  match g.wires.find? (fun w =>
      (w.nodeA == nodeA && w.nodeB == nodeB) || (w.nodeA == nodeB && w.nodeB == nodeA)) with
  | some w => (w.id, g)
  | none =>
      (g.nextWireId,
       { g with wires := g.wires ++ [⟨g.nextWireId, nodeA, nodeB⟩],
                nextWireId := g.nextWireId + 1 })

/-- The incident-wire list `wireInfo` built in the 2-wire branch of
`CircuitGraph::cleanupOrphanedJunctions`: for each wire touching the junction,
the pair (wire id, far endpoint). -/
def wireInfo (g : CircuitGraph) (junctionNodeId : Int) : List (Int × Int) :=
  g.wires.filterMap (fun w =>
    if w.nodeA == junctionNodeId then some (w.id, w.nodeB)
    else if w.nodeB == junctionNodeId then some (w.id, w.nodeA)
    else none)

/-- Whether the cleanup loop acts on this junction: 0, 1, or (2 incident wires
with a two-element `wireInfo`, mirroring the source's inner guard). -/
def junctionActionable (g : CircuitGraph) (j : Junction) : Bool :=
  let c := countWiresConnectedToNode g j.nodeId
  c == 0 || c == 1 || (c == 2 && (wireInfo g j.nodeId).length == 2)

/-- The scan of the junction list inside `cleanupOrphanedJunctions`: the first
actionable junction, split as (entries before it, it, entries after it). -/
def findActionable (g : CircuitGraph) :
    List Junction → Option (List Junction × Junction × List Junction)
  | [] => none
  | j :: rest =>
      if junctionActionable g j then some ([], j, rest)
      else match findActionable g rest with
        | some (pre, x, post) => some (j :: pre, x, post)
        | none => none

/-- The body of one cleanup iteration on the selected junction: removes an
orphaned junction (0 wires), a dead-end junction and its single wire (1 wire),
or collapses a 2-wire junction (remove both wires; add a wire joining the far
endpoints when they differ and no such wire is already present).  `pre`/`post`
are the junction-list entries around the selected one. -/
def applyCleanup (g : CircuitGraph) (pre : List Junction) (j : Junction)
    (post : List Junction) : CircuitGraph :=
  let jid := j.nodeId
  let c := countWiresConnectedToNode g jid
  if c = 0 then
    { g with nodes := g.nodes.filter (fun n => !(n.id == jid)),
             junctions := pre ++ post }
  else if c = 1 then
    { g with wires := g.wires.filter (fun w => !(w.nodeA == jid || w.nodeB == jid)),
             nodes := g.nodes.filter (fun n => !(n.id == jid)),
             junctions := pre ++ post }
  else
    -- c = 2 with a two-element wireInfo (the scan only selects that case)
    match wireInfo g jid with
    | (w1, e1) :: (w2, e2) :: _ =>
        let wires1 := g.wires.filter (fun w => !(w.id == w1 || w.id == w2))
        let exists2 := wires1.any (fun w =>
          (w.nodeA == e1 && w.nodeB == e2) || (w.nodeA == e2 && w.nodeB == e1))
        let g2 :=
          if e1 ≠ e2 ∧ exists2 = false then
            { g with wires := wires1 ++ [⟨g.nextWireId, e1, e2⟩],
                     nextWireId := g.nextWireId + 1 }
          else { g with wires := wires1 }
        { g2 with nodes := g.nodes.filter (fun n => !(n.id == jid)),
                  junctions := pre ++ post }
    | _ => { g with junctions := pre ++ post }

theorem findActionable_split (g : CircuitGraph) :
    ∀ (l pre post : List Junction) (j : Junction),
      findActionable g l = some (pre, j, post) → l = pre ++ j :: post := by
  intro l
  induction l with
  | nil => intro pre post j h; simp [findActionable] at h
  | cons a rest ih =>
      intro pre post j h
      unfold findActionable at h
      by_cases ha : junctionActionable g a
      · simp [ha] at h
        obtain ⟨h1, h2, h3⟩ := h
        subst h1; subst h2; subst h3; rfl
      · simp [ha] at h
        cases hr : findActionable g rest with
        | none => rw [hr] at h; simp at h
        | some t =>
            obtain ⟨p2, x2, q2⟩ := t
            rw [hr] at h
            simp at h
            obtain ⟨h1, h2, h3⟩ := h
            subst h1; subst h2; subst h3
            simp [ih _ _ _ hr]

theorem applyCleanup_junctions (g : CircuitGraph) (pre : List Junction)
    (j : Junction) (post : List Junction) :
    (applyCleanup g pre j post).junctions = pre ++ post := by
  unfold applyCleanup
  dsimp only
  split
  · rfl
  · split
    · rfl
    · split
      · rfl
      · rfl

theorem applyCleanup_junctions_len (g : CircuitGraph) (pre : List Junction)
    (j : Junction) (post : List Junction)
    (h : findActionable g g.junctions = some (pre, j, post)) :
    (applyCleanup g pre j post).junctions.length < g.junctions.length := by
  have hsplit := findActionable_split g g.junctions pre post j h
  have hlen : g.junctions.length = pre.length + (post.length + 1) := by
    rw [hsplit]; simp [List.length_append]
  rw [applyCleanup_junctions, List.length_append]
  omega

/-- `CircuitGraph::cleanupOrphanedJunctions`: repeat "find the first junction
with ≤ 2 incident wires and clean it up" until none remains.  Terminates since
every iteration removes exactly one junction entry. -/
def cleanupOrphanedJunctions (g : CircuitGraph) : CircuitGraph :=
  match h : findActionable g g.junctions with
  | none => g
  | some (pre, j, post) =>
      cleanupOrphanedJunctions (applyCleanup g pre j post)
termination_by g.junctions.length
decreasing_by exact applyCleanup_junctions_len g pre j post h

/-- Wire deletion without the follow-up cleanup (the erase in
`CircuitGraph::removeWire`). -/
def removeWireOnly (g : CircuitGraph) (wireId : Int) : CircuitGraph :=
  { g with wires := g.wires.filter (fun w => !(w.id == wireId)) }

/-- `CircuitGraph::removeWire`: erase the wire, then re-run junction cleanup. -/
def removeWire (g : CircuitGraph) (wireId : Int) : CircuitGraph :=
  cleanupOrphanedJunctions (removeWireOnly g wireId)

/-- `CircuitGraph::removeComponent`: find the component; collect the ids of all
wires with an endpoint among the component's nodes; erase those wires by id;
erase the component by id.  An absent id leaves the graph unchanged. -/
def removeComponent (g : CircuitGraph) (componentId : Int) : CircuitGraph :=
  match g.components.find? (fun c => c.id == componentId) with
  | none => g
  | some c =>
      let componentNodes := c.getAllNodes
      let wiresToRemove := (g.wires.filter (fun w =>
        componentNodes.any (fun n => w.nodeA == n || w.nodeB == n))).map (·.id)
      { g with
          wires := g.wires.filter (fun w => !(wiresToRemove.contains w.id)),
          components := g.components.filter (fun c2 => !(c2.id == componentId)) }

theorem wireInfo_length (g : CircuitGraph) (jid : Int) :
    (wireInfo g jid).length = countWiresConnectedToNode g jid := by
  unfold wireInfo countWiresConnectedToNode
  induction g.wires with
  | nil => rfl
  | cons w ws ih =>
      simp at ih
      by_cases hA : w.nodeA = jid
      · simp [List.filterMap_cons, List.filter_cons, hA, ih]
      · by_cases hB : w.nodeB = jid
        · simp [List.filterMap_cons, List.filter_cons, hA, hB, ih]
        · simp [List.filterMap_cons, List.filter_cons, hA, hB, ih]

theorem findActionable_none (g : CircuitGraph) :
    ∀ l : List Junction, findActionable g l = none →
      ∀ j ∈ l, junctionActionable g j = false := by
  intro l
  induction l with
  | nil => intro _ j hj; simp at hj
  | cons a rest ih =>
      intro h j hj
      unfold findActionable at h
      by_cases ha : junctionActionable g a
      · simp [ha] at h
      · simp only [ha, if_false] at h
        cases hr : findActionable g rest with
        | some t => rw [hr] at h; obtain ⟨p, x, q⟩ := t; simp at h
        | none =>
            rcases List.mem_cons.mp hj with h1 | h1
            · subst h1; simpa using ha
            · exact ih hr j h1

theorem cleanup_eq_of_none (g : CircuitGraph)
    (h : findActionable g g.junctions = none) : cleanupOrphanedJunctions g = g := by
  rw [cleanupOrphanedJunctions]
  split
  · rfl
  · rename_i pre j post heq
    rw [h] at heq
    exact absurd heq (by simp)

theorem cleanup_eq_of_some (g : CircuitGraph) (pre : List Junction) (j : Junction)
    (post : List Junction) (h : findActionable g g.junctions = some (pre, j, post)) :
    cleanupOrphanedJunctions g = cleanupOrphanedJunctions (applyCleanup g pre j post) := by
  conv_lhs => rw [cleanupOrphanedJunctions]
  split
  · rename_i heq; rw [h] at heq; exact absurd heq (by simp)
  · rename_i pre2 j2 post2 heq
    rw [h] at heq
    obtain ⟨h1, h2, h3⟩ := by simpa using heq
    rw [h1, h2, h3]

theorem cleanup_fixpoint_aux :
    ∀ (n : Nat) (g : CircuitGraph), g.junctions.length ≤ n →
      findActionable (cleanupOrphanedJunctions g)
        (cleanupOrphanedJunctions g).junctions = none := by
  intro n
  induction n with
  | zero =>
      intro g hg
      have hj : g.junctions = [] := List.length_eq_zero.mp (Nat.le_zero.mp hg)
      have hnone : findActionable g g.junctions = none := by rw [hj]; rfl
      rw [cleanup_eq_of_none g hnone]
      exact hnone
  | succ n ih =>
      intro g hg
      cases hact : findActionable g g.junctions with
      | none => rw [cleanup_eq_of_none g hact]; exact hact
      | some t =>
          obtain ⟨pre, j, post⟩ := t
          rw [cleanup_eq_of_some g pre j post hact]
          refine ih _ ?_
          have := applyCleanup_junctions_len g pre j post hact
          omega

theorem cleanup_fixpoint (g : CircuitGraph) :
    findActionable (cleanupOrphanedJunctions g)
      (cleanupOrphanedJunctions g).junctions = none :=
  cleanup_fixpoint_aux g.junctions.length g (Nat.le_refl _)

theorem not_actionable_three_le (g : CircuitGraph) (j : Junction)
    (h : junctionActionable g j = false) :
    3 ≤ countWiresConnectedToNode g j.nodeId := by
  unfold junctionActionable at h
  rw [wireInfo_length] at h
  simp only [Bool.or_eq_false_iff, Bool.and_eq_false_iff,
    beq_eq_false_iff_ne, ne_eq] at h
  omega

/-- C8: after `cleanupOrphanedJunctions` every surviving junction has at least
3 incident wires (so no 0-, 1- or 2-wire junction remains), the cleanup is
idempotent, and `removeWire` re-applies the cleanup after erasing the wire.
This is the claim as amended: a 2-wire junction is removed together with its
two wires, but a replacement wire joining the two far endpoints is added only
when those endpoints are distinct and not already joined by a remaining wire
(see the counterexample). -/
theorem c8_junction_cleanup (g : CircuitGraph) (wireId : Int) :
    (∀ j ∈ (cleanupOrphanedJunctions g).junctions,
        3 ≤ countWiresConnectedToNode (cleanupOrphanedJunctions g) j.nodeId) ∧
    cleanupOrphanedJunctions (cleanupOrphanedJunctions g) = cleanupOrphanedJunctions g ∧
    removeWire g wireId = cleanupOrphanedJunctions (removeWireOnly g wireId) := by
  refine ⟨?_, ?_, rfl⟩
  · intro j hj
    exact not_actionable_three_le _ j
      (findActionable_none _ _ (cleanup_fixpoint g) j hj)
  · exact cleanup_eq_of_none _ (cleanup_fixpoint g)

/-- A graph whose single junction (node 1) carries exactly two incident wires,
both leading to the same far endpoint (node 0). -/
def gC8 : CircuitGraph :=
  { nodes := [⟨0, true⟩, ⟨1, false⟩], components := [],
    wires := [⟨10, 1, 0⟩, ⟨11, 1, 0⟩], junctions := [⟨1⟩],
    nextNodeId := 2, nextComponentId := 0, nextWireId := 12, groundNodeId := 0 }

/-- C8 counterexample: the claim says a junction with exactly 2 incident wires
is collapsed "by replacing its two wires with one wire joining the two far
endpoints".  In `gC8` the junction has exactly 2 incident wires, yet after
cleanup the graph contains no wire at all: both wires are removed and no
replacement is created, because the two far endpoints coincide. -/
theorem c8_counterexample :
    countWiresConnectedToNode gC8 1 = 2 ∧
    (cleanupOrphanedJunctions gC8).wires = [] ∧
    (cleanupOrphanedJunctions gC8).junctions = [] := by
  have h1 : findActionable gC8 gC8.junctions = some ([], ⟨1⟩, []) := by decide
  have h2 := cleanup_eq_of_some gC8 [] ⟨1⟩ [] h1
  have h3 : findActionable (applyCleanup gC8 [] ⟨1⟩ [])
      (applyCleanup gC8 [] ⟨1⟩ []).junctions = none := by decide
  have h4 := cleanup_eq_of_none _ h3
  rw [h2, h4]
  refine ⟨by decide, by decide, by decide⟩

/-- C8 witness: instantiation of the amended cleanup theorem on `gC8`. -/
theorem c8_witness :
    (∀ j ∈ (cleanupOrphanedJunctions gC8).junctions,
        3 ≤ countWiresConnectedToNode (cleanupOrphanedJunctions gC8) j.nodeId) ∧
    cleanupOrphanedJunctions (cleanupOrphanedJunctions gC8) = cleanupOrphanedJunctions gC8 :=
  ⟨(c8_junction_cleanup gC8 0).1, (c8_junction_cleanup gC8 0).2.1⟩

/-- The wire-duplication test used by `connectNodes`: an existing wire between
the same unordered pair, in either orientation. -/
def sameWirePair (a b : Int) (w : Wire) : Bool :=
  (w.nodeA == a && w.nodeB == b) || (w.nodeA == b && w.nodeB == a)

theorem connectNodes_eq (g : CircuitGraph) (a b : Int) :
    connectNodes g a b =
      match g.wires.find? (sameWirePair a b) with
      | some w => (w.id, g)
      | none =>
          (g.nextWireId,
           { g with wires := g.wires ++ [⟨g.nextWireId, a, b⟩],
                    nextWireId := g.nextWireId + 1 }) := rfl

/-- C9 (amended): `connectNodes` coalesces duplicates — when a wire between the
unordered pair already exists (in either orientation) it returns that wire's id
and leaves the graph unchanged; otherwise it appends one fresh wire with exactly
the given endpoints.  Self-loop freedom holds only for calls with distinct
endpoints: `connectNodes` itself does not reject `nodeA = nodeB` (see the
counterexample), so the graph invariant is conditional on callers. -/
theorem c9_connect_nodes (g : CircuitGraph) (a b : Int) :
    ((∃ w ∈ g.wires, sameWirePair a b w) →
        (connectNodes g a b).2 = g ∧
        ∃ w ∈ g.wires, sameWirePair a b w ∧ (connectNodes g a b).1 = w.id) ∧
    ((∀ w ∈ g.wires, ¬ sameWirePair a b w) →
        (connectNodes g a b).2.wires = g.wires ++ [⟨g.nextWireId, a, b⟩]) ∧
    (a ≠ b → (∀ w ∈ g.wires, w.nodeA ≠ w.nodeB) →
        ∀ w ∈ (connectNodes g a b).2.wires, w.nodeA ≠ w.nodeB) := by
  refine ⟨?_, ?_, ?_⟩
  · intro hex
    cases hfs : g.wires.find? (sameWirePair a b) with
    | none =>
        exfalso
        rcases hex with ⟨w, hw, hp⟩
        exact List.find?_eq_none.mp hfs w hw hp
    | some w =>
        rw [connectNodes_eq, hfs]
        exact ⟨rfl, w, List.mem_of_find?_eq_some hfs, List.find?_some hfs, rfl⟩
  · intro hnone
    have hfind : g.wires.find? (sameWirePair a b) = none :=
      List.find?_eq_none.mpr (by intro w hw; simpa using hnone w hw)
    rw [connectNodes_eq, hfind]
  · intro hab hloop w hw
    cases hfs : g.wires.find? (sameWirePair a b) with
    | some w2 =>
        rw [connectNodes_eq, hfs] at hw
        exact hloop w hw
    | none =>
        rw [connectNodes_eq, hfs] at hw
        simp only [List.mem_append, List.mem_singleton] at hw
        rcases hw with hw | hw
        · exact hloop w hw
        · subst hw; exact hab

/-- An otherwise empty graph (ground node only). -/
def gC9 : CircuitGraph :=
  { nodes := [⟨0, true⟩], components := [], wires := [], junctions := [],
    nextNodeId := 1, nextComponentId := 0, nextWireId := 0, groundNodeId := 0 }

/-- C9 counterexample: `connectNodes` called with the same node on both sides
creates a self-loop wire, violating the claimed invariant `nodeA != nodeB`. -/
theorem c9_counterexample :
    (connectNodes gC9 5 5).2.wires = [⟨0, 5, 5⟩] ∧
    ∃ w ∈ (connectNodes gC9 5 5).2.wires, w.nodeA = w.nodeB := by
  refine ⟨by decide, ⟨0, 5, 5⟩, by decide, rfl⟩

/-- C9 witness: the amended theorem instantiated on a concrete graph with one
wire between nodes 1 and 2: reconnecting (2,1) coalesces, and connecting the
distinct pair (1,3) on a loop-free graph keeps the graph loop-free. -/
theorem c9_witness :
    (∃ w ∈ (connectNodes gC9 1 2).2.wires, sameWirePair 2 1 w) ∧
    ((connectNodes (connectNodes gC9 1 2).2 2 1).2 = (connectNodes gC9 1 2).2 ∧
     ∃ w ∈ (connectNodes gC9 1 2).2.wires, sameWirePair 2 1 w ∧
       (connectNodes (connectNodes gC9 1 2).2 2 1).1 = w.id) ∧
    (∀ w ∈ (connectNodes gC9 1 2).2.wires, w.nodeA ≠ w.nodeB) := by
  have h1 : ∃ w ∈ (connectNodes gC9 1 2).2.wires, sameWirePair 2 1 w := by
    refine ⟨⟨0, 1, 2⟩, by decide, by decide⟩
  refine ⟨h1, (c9_connect_nodes (connectNodes gC9 1 2).2 2 1).1 h1, ?_⟩
  exact (c9_connect_nodes gC9 1 2).2.2 (by decide)
    (by decide : ∀ w ∈ gC9.wires, w.nodeA ≠ w.nodeB)

theorem removeComponent_of_absent (g : CircuitGraph) (cid : Int)
    (h : g.components.find? (fun c => c.id == cid) = none) :
    removeComponent g cid = g := by
  unfold removeComponent
  rw [h]

theorem removeComponent_wires (g : CircuitGraph) (cid : Int) (c : Comp)
    (hfind : g.components.find? (fun c2 => c2.id == cid) = some c)
    (hnodup : (g.wires.map (·.id)).Nodup) :
    (removeComponent g cid).wires =
      g.wires.filter (fun w => !(c.getAllNodes.any (fun n => w.nodeA == n || w.nodeB == n))) := by
  unfold removeComponent
  rw [hfind]
  dsimp only
  refine List.filter_congr ?_
  intro w hw
  have hc : (((g.wires.filter (fun w2 =>
        c.getAllNodes.any (fun n => w2.nodeA == n || w2.nodeB == n))).map (·.id)).contains w.id)
      = c.getAllNodes.any (fun n => w.nodeA == n || w.nodeB == n) := by
    rw [Bool.eq_iff_iff]
    constructor
    · intro hmem
      have hmem2 : w.id ∈ (g.wires.filter (fun w2 =>
          c.getAllNodes.any (fun n => w2.nodeA == n || w2.nodeB == n))).map (·.id) := by
        simpa using hmem
      rcases List.mem_map.mp hmem2 with ⟨w2, hw2, hid⟩
      have hw2f := List.mem_filter.mp hw2
      have heq : w2 = w := List.inj_on_of_nodup_map hnodup hw2f.1 hw hid
      rw [heq] at hw2f
      exact hw2f.2
    · intro hp
      have : w.id ∈ (g.wires.filter (fun w2 =>
          c.getAllNodes.any (fun n => w2.nodeA == n || w2.nodeB == n))).map (·.id) :=
        List.mem_map.mpr ⟨w, List.mem_filter.mpr ⟨hw, hp⟩, rfl⟩
      simpa using this
  rw [hc]

/-- C10: `removeComponent` with a present id removes every component carrying
that id (exactly the one component when ids are unique) and exactly the wires
with an endpoint among that component's nodes (when wire ids are unique);
nodes, junctions and the id counters are untouched and no junction cleanup
runs; an absent id leaves the graph unchanged. -/
theorem c10_remove_component (g : CircuitGraph) (cid : Int) :
    (g.components.find? (fun c => c.id == cid) = none → removeComponent g cid = g) ∧
    (∀ c, g.components.find? (fun c2 => c2.id == cid) = some c →
      (removeComponent g cid).nodes = g.nodes ∧
      (removeComponent g cid).junctions = g.junctions ∧
      (removeComponent g cid).nextNodeId = g.nextNodeId ∧
      (removeComponent g cid).nextWireId = g.nextWireId ∧
      (removeComponent g cid).components =
        g.components.filter (fun c2 => !(c2.id == cid)) ∧
      ((g.wires.map (·.id)).Nodup →
        (removeComponent g cid).wires =
          g.wires.filter
            (fun w => !(c.getAllNodes.any (fun n => w.nodeA == n || w.nodeB == n))))) := by
  refine ⟨removeComponent_of_absent g cid, ?_⟩
  intro c hfind
  refine ⟨?_, ?_, ?_, ?_, ?_, removeComponent_wires g cid c hfind⟩ <;>
    (unfold removeComponent; rw [hfind])

/-- A concrete graph for the C10 witness: a resistor (id 7) between nodes 1 and
2, a capacitor (id 8) between nodes 2 and 0, and wires 0–1 (id 0) and 2–3
(id 1). -/
def gC10 : CircuitGraph :=
  { nodes := [⟨0, true⟩, ⟨1, false⟩, ⟨2, false⟩, ⟨3, false⟩],
    components :=
      [{ id := 7, ctype := CompType.resistor, node1 := 1, node2 := 2, value := 1000 },
       { id := 8, ctype := CompType.capacitor, node1 := 2, node2 := 0, value := 1/1000000 }],
    wires := [⟨0, 0, 1⟩, ⟨1, 2, 3⟩], junctions := [⟨3⟩],
    nextNodeId := 4, nextComponentId := 9, nextWireId := 2, groundNodeId := 0 }

/-- C10 witness: removing component 7 from `gC10` removes both wires (each has
an endpoint among nodes 1, 2) and only component 7, leaving nodes and junctions
alone; removing the absent id 99 changes nothing. -/
theorem c10_witness :
    removeComponent gC10 99 = gC10 ∧
    (removeComponent gC10 7).nodes = gC10.nodes ∧
    (removeComponent gC10 7).junctions = gC10.junctions ∧
    (removeComponent gC10 7).components =
      gC10.components.filter (fun c2 => !(c2.id == 7)) ∧
    (removeComponent gC10 7).wires = [] := by
  have h99 := (c10_remove_component gC10 99).1 (by decide)
  have hfind : gC10.components.find? (fun c2 => c2.id == 7) =
      some { id := 7, ctype := CompType.resistor, node1 := 1, node2 := 2, value := 1000 } := by
    rfl
  have h7 := (c10_remove_component gC10 7).2 _ hfind
  refine ⟨h99, h7.1, h7.2.1, h7.2.2.2.2.1, ?_⟩
  rw [h7.2.2.2.2.2 (by decide)]
  decide

/-!
## Node equivalence classes (MNASolver::buildNodeEquivalenceClasses)

The C++ stores `nodeParent`/`nodeRank` in `std::map`s whose absent keys behave,
on first access, exactly like freshly inserted identity/zero entries; the maps
are therefore modelled as total functions with identity (resp. zero) default,
which makes the explicit "insert if missing" loops of the source no-ops.
`findNodeRepresentative` recurses along the parent chain; the model indexes that
recursion with a fuel bound (`ufFuel`, one more than the number of wires, which
the development proves always suffices: a chain's length never exceeds the
number of unions performed). -/

/-- n-fold application of a parent map. -/
def iterP (p : Int → Int) : Nat → Int → Int
  | 0, x => x
  | n + 1, x => iterP p n (p x)

/-- A fixed point of the parent map (a union-find root). -/
def isRoot (p : Int → Int) (x : Int) : Prop := p x = x

/-- `MNASolver::findNodeRepresentative`: follow the parent chain to the root
and compress the path (every visited node is re-pointed at the root).  Returns
the representative and the compressed parent map. -/
def findRep (p : Int → Int) : Nat → Int → Int × (Int → Int)
  | 0, x => (x, p)
  | n + 1, x =>
      if p x = x then (x, p)
      else
        let r := findRep p n (p x)
        (r.1, Function.update r.2 x r.1)

/-- The union-find state (`nodeParent` / `nodeRank`). -/
structure UFState where
  parent : Int → Int
  rank : Int → Nat

/-- `MNASolver::unionNodes`: find both roots (the second lookup sees the map
as compressed by the first) and link by rank, incrementing the surviving
root's rank on ties. -/
def unionNodes (u : UFState) (fuel : Nat) (a b : Int) : UFState :=
  let fa := findRep u.parent fuel a
  let fb := findRep fa.2 fuel b
  let rootA := fa.1
  let rootB := fb.1
  let p := fb.2
  if rootA = rootB then { parent := p, rank := u.rank }
  else if u.rank rootA < u.rank rootB then
    { parent := Function.update p rootA rootB, rank := u.rank }
  else if u.rank rootB < u.rank rootA then
    { parent := Function.update p rootB rootA, rank := u.rank }
  else
    { parent := Function.update p rootB rootA,
      rank := Function.update u.rank rootA (u.rank rootA + 1) }

/-- The union loop of `buildNodeEquivalenceClasses`: union the endpoints of
every wire in order. -/
def buildEquivAux (fuel : Nat) : UFState → List Wire → UFState
  | u, [] => u
  | u, w :: ws => buildEquivAux fuel (unionNodes u fuel w.nodeA w.nodeB) ws

/-- Fuel bound for all representative lookups of one rebuild. -/
def ufFuel (g : CircuitGraph) : Nat := g.wires.length + 1

/-- `MNASolver::buildNodeEquivalenceClasses`: every node starts as its own
parent with rank 0 (the identity-default total maps), then the endpoints of
each wire are unioned. -/
def buildNodeEquivalenceClasses (g : CircuitGraph) : UFState :=
  buildEquivAux (ufFuel g) ⟨fun x => x, fun _ => 0⟩ g.wires

/-- Wires as a relation on node ids (oriented as stored; the equivalence
closure symmetrises it). -/
def wireRel (ws : List Wire) (x y : Int) : Prop :=
  ∃ w ∈ ws, w.nodeA = x ∧ w.nodeB = y

theorem iterP_succ_out (p : Int → Int) : ∀ (n : Nat) (x : Int),
    iterP p (n + 1) x = p (iterP p n x) := by
  intro n
  induction n with
  | zero => intro x; rfl
  | succ n ih => intro x; rw [show iterP p (n + 1 + 1) x = iterP p (n + 1) (p x) from rfl,
      ih (p x)]; rfl

theorem iterP_add (p : Int → Int) : ∀ (a b : Nat) (x : Int),
    iterP p (a + b) x = iterP p a (iterP p b x) := by
  intro a b
  induction b with
  | zero => intro x; rfl
  | succ b ih =>
      intro x
      rw [show a + (b + 1) = (a + b) + 1 from rfl]
      rw [show iterP p (a + b + 1) x = iterP p (a + b) (p x) from rfl, ih (p x)]
      rfl

theorem iterP_root_stay (p : Int → Int) {r : Int} (h : isRoot p r) :
    ∀ k, iterP p k r = r := by
  intro k
  induction k with
  | zero => rfl
  | succ k ih => rw [iterP_succ_out, ih, h]

theorem iterP_stable (p : Int → Int) {m : Nat} {x : Int}
    (h : isRoot p (iterP p m x)) : ∀ k, m ≤ k → iterP p k x = iterP p m x := by
  intro k hk
  obtain ⟨j, rfl⟩ := Nat.exists_eq_add_of_le hk
  rw [Nat.add_comm m j, iterP_add]
  exact iterP_root_stay p h j

theorem iterP_root_unique (p : Int → Int) {m k : Nat} {x : Int}
    (hm : isRoot p (iterP p m x)) (hk : isRoot p (iterP p k x)) :
    iterP p m x = iterP p k x := by
  rcases Nat.le_total m k with h | h
  · rw [iterP_stable p hm k h]
  · rw [iterP_stable p hk m h]

theorem iterP_succ_in (p : Int → Int) (n : Nat) (x : Int) :
    iterP p (n + 1) x = iterP p n (p x) := rfl

/-- Re-pointing a non-root node `x` straight at a root `r` reachable from it
(path compression) preserves every stabilised chain: same eventual root,
within the same iteration bound. -/
theorem update_to_root_preserves (p : Int → Int) (x r : Int)
    (hpx : p x ≠ x) (hr : isRoot p r) (hreach : ∃ k, iterP p k x = r) :
    ∀ (m : Nat) (y : Int), isRoot p (iterP p m y) →
      iterP (Function.update p x r) m y = iterP p m y ∧
      isRoot (Function.update p x r) (iterP (Function.update p x r) m y) := by
  have hrx : r ≠ x := by
    intro h
    rw [h] at hr
    exact hpx hr
  have hroot2 : isRoot (Function.update p x r) r := by
    show Function.update p x r r = r
    rw [Function.update_apply, if_neg hrx]
    exact hr
  intro m
  induction m with
  | zero =>
      intro y hy
      have hyx : y ≠ x := by
        intro h
        subst h
        exact hpx hy
      refine ⟨rfl, ?_⟩
      show Function.update p x r y = y
      rw [Function.update_apply, if_neg hyx]
      exact hy
  | succ m ih =>
      intro y hy
      by_cases hyx : y = x
      · subst hyx
        rcases hreach with ⟨k, hk⟩
        have hkroot : isRoot p (iterP p k y) := by rw [hk]; exact hr
        have hval : iterP p (m + 1) y = r := by
          rw [iterP_root_unique p hy hkroot, hk]
        have hupy : Function.update p y r y = r := Function.update_same y r p
        constructor
        · rw [iterP_succ_in, hupy, iterP_root_stay _ hroot2 m, hval]
        · rw [iterP_succ_in, hupy, iterP_root_stay _ hroot2 m]
          exact hroot2
      · have hupy : Function.update p x r y = p y := by
          rw [Function.update_apply, if_neg hyx]
        have hy2 : isRoot p (iterP p m (p y)) := hy
        obtain ⟨e1, r1⟩ := ih (p y) hy2
        constructor
        · rw [iterP_succ_in, hupy, e1, iterP_succ_in]
        · rw [iterP_succ_in, hupy]
          exact r1

/-- Correctness of `findRep`: with enough fuel to reach a root, it returns the
chain's root, and the compressed map it returns has the same eventual root as
the input map for every stabilised chain, within the same bound. -/
theorem findRep_spec : ∀ (fuel : Nat) (p : Int → Int) (x : Int),
    isRoot p (iterP p fuel x) →
    (findRep p fuel x).1 = iterP p fuel x ∧
    (∀ (m : Nat) (y : Int), isRoot p (iterP p m y) →
      iterP (findRep p fuel x).2 m y = iterP p m y ∧
      isRoot (findRep p fuel x).2 (iterP (findRep p fuel x).2 m y)) := by
  intro fuel
  induction fuel with
  | zero =>
      intro p x hx
      exact ⟨rfl, fun m y hy => ⟨rfl, hy⟩⟩
  | succ fuel ih =>
      intro p x hx
      by_cases hpx : p x = x
      · have h1 : findRep p (fuel + 1) x = (x, p) := by
          unfold findRep
          rw [if_pos hpx]
        rw [h1]
        constructor
        · have h0 : isRoot p (iterP p 0 x) := hpx
          rw [iterP_stable p h0 (fuel + 1) (Nat.zero_le _)]
          rfl
        · exact fun m y hy => ⟨rfl, hy⟩
      · have hstep : isRoot p (iterP p fuel (p x)) := hx
        obtain ⟨ih1, ih2⟩ := ih p (p x) hstep
        have h1 : findRep p (fuel + 1) x =
            ((findRep p fuel (p x)).1,
             Function.update (findRep p fuel (p x)).2 x (findRep p fuel (p x)).1) := by
          show (if p x = x then (x, p)
            else ((findRep p fuel (p x)).1,
              Function.update (findRep p fuel (p x)).2 x (findRep p fuel (p x)).1)) = _
          rw [if_neg hpx]
        have hx1 : iterP p (fuel + 1) x = (findRep p fuel (p x)).1 := by
          rw [iterP_succ_in, ih1]
        have hpres := ih2 (fuel + 1) x hx
        have hval2 : iterP (findRep p fuel (p x)).2 (fuel + 1) x = (findRep p fuel (p x)).1 := by
          rw [hpres.1, hx1]
        have hp2x : (findRep p fuel (p x)).2 x ≠ x := by
          intro hcontra
          have hstay : iterP (findRep p fuel (p x)).2 (fuel + 1) x = x :=
            iterP_root_stay _ hcontra (fuel + 1)
          have hpx2 : iterP p (fuel + 1) x = x := by rw [← hpres.1, hstay]
          rw [hpx2] at hx
          exact hpx hx
        have hroot2 : isRoot (findRep p fuel (p x)).2 (findRep p fuel (p x)).1 := by
          have := hpres.2
          rwa [hval2] at this
        have hreach2 : ∃ k, iterP (findRep p fuel (p x)).2 k x = (findRep p fuel (p x)).1 :=
          ⟨fuel + 1, hval2⟩
        have hcu := update_to_root_preserves (findRep p fuel (p x)).2 x
          (findRep p fuel (p x)).1 hp2x hroot2 hreach2
        rw [h1]
        refine ⟨hx1.symm, ?_⟩
        intro m y hy
        obtain ⟨e1, r1⟩ := ih2 m y hy
        obtain ⟨e2, r2⟩ := hcu m y (by rw [e1] at r1 ⊢; exact r1)
        exact ⟨by rw [e2, e1], r2⟩

/-- Linking root `ra` under root `rb` sends every chain ending at `ra` to `rb`
and leaves all other chains alone, at the cost of one extra step of fuel. -/
theorem link_root_spec (p : Int → Int) (ra rb : Int)
    (hra : isRoot p ra) (hrb : isRoot p rb) (hne : ra ≠ rb) :
    ∀ (m : Nat) (y : Int), isRoot p (iterP p m y) →
      iterP (Function.update p ra rb) (m + 1) y =
        (if iterP p m y = ra then rb else iterP p m y) ∧
      isRoot (Function.update p ra rb) (iterP (Function.update p ra rb) (m + 1) y) := by
  have hrb2 : isRoot (Function.update p ra rb) rb := by
    show Function.update p ra rb rb = rb
    rw [Function.update_apply, if_neg (Ne.symm hne)]
    exact hrb
  intro m
  induction m with
  | zero =>
      intro y hy
      by_cases hyra : y = ra
      · subst hyra
        have hup : Function.update p y rb y = rb := Function.update_same y rb p
        constructor
        · rw [iterP_succ_in, hup]
          simp [iterP]
        · rw [iterP_succ_in, hup]
          exact hrb2
      · have hup : Function.update p ra rb y = y := by
          rw [Function.update_apply, if_neg hyra]
          exact hy
        constructor
        · rw [iterP_succ_in, hup]
          simp [iterP, hyra]
        · rw [iterP_succ_in, hup]
          show Function.update p ra rb y = y
          rw [Function.update_apply, if_neg hyra]
          exact hy
  | succ m ih =>
      intro y hy
      by_cases hyra : y = ra
      · subst hyra
        have hstay : iterP p (m + 1) y = y := iterP_root_stay p hra (m + 1)
        have hup : Function.update p y rb y = rb := Function.update_same y rb p
        constructor
        · rw [iterP_succ_in (Function.update p y rb) (m + 1) y, hup,
            iterP_root_stay _ hrb2 (m + 1), hstay, if_pos rfl]
        · rw [iterP_succ_in (Function.update p y rb) (m + 1) y, hup,
            iterP_root_stay _ hrb2 (m + 1)]
          exact hrb2
      · have hup : Function.update p ra rb y = p y := by
          rw [Function.update_apply, if_neg hyra]
        have hy2 : isRoot p (iterP p m (p y)) := hy
        obtain ⟨e1, r1⟩ := ih (p y) hy2
        constructor
        · rw [iterP_succ_in (Function.update p ra rb) (m + 1) y, hup, e1,
            show iterP p (m + 1) y = iterP p m (p y) from rfl]
        · rw [iterP_succ_in (Function.update p ra rb) (m + 1) y, hup]
          exact r1

theorem if_link_char {c d fx fy : Int} (hcd : c ≠ d) :
    ((if fx = c then d else fx) = (if fy = c then d else fy)) ↔
      (fx = fy ∨ ((fx = c ∨ fx = d) ∧ (fy = c ∨ fy = d))) := by
  by_cases hx : fx = c
  · by_cases hy : fy = c
    · simp [hx, hy]
    · rw [if_pos hx, if_neg hy]
      constructor
      · intro h
        exact Or.inr ⟨Or.inl hx, Or.inr h.symm⟩
      · intro h
        rcases h with h | ⟨_, h2⟩
        · exact absurd (h.symm.trans hx) hy
        · rcases h2 with h2 | h2
          · exact absurd h2 hy
          · exact h2.symm
  · by_cases hy : fy = c
    · rw [if_neg hx, if_pos hy]
      constructor
      · intro h
        exact Or.inr ⟨Or.inr h, Or.inl hy⟩
      · intro h
        rcases h with h | ⟨h1, _⟩
        · exact absurd (h.trans hy) hx
        · rcases h1 with h1 | h1
          · exact absurd h1 hx
          · exact h1
    · rw [if_neg hx, if_neg hy]
      constructor
      · exact Or.inl
      · intro h
        rcases h with h | ⟨h1, h2⟩
        · exact h
        · rcases h1 with h1 | h1
          · exact absurd h1 hx
          · rcases h2 with h2 | h2
            · exact absurd h2 hy
            · rw [h1, h2]

theorem linked_union_char (p2 : Int → Int) (D : Nat) (c d : Int)
    (hstab2 : ∀ x, isRoot p2 (iterP p2 D x))
    (hc : isRoot p2 c) (hd : isRoot p2 d) (hcd : c ≠ d) :
    (∀ x, isRoot (Function.update p2 c d) (iterP (Function.update p2 c d) (D + 1) x)) ∧
    (∀ x y, iterP (Function.update p2 c d) (D + 1) x =
        iterP (Function.update p2 c d) (D + 1) y ↔
      (iterP p2 D x = iterP p2 D y ∨
        ((iterP p2 D x = c ∨ iterP p2 D x = d) ∧
         (iterP p2 D y = c ∨ iterP p2 D y = d)))) := by
  constructor
  · intro x
    exact (link_root_spec p2 c d hc hd hcd D x (hstab2 x)).2
  · intro x y
    rw [(link_root_spec p2 c d hc hd hcd D x (hstab2 x)).1,
        (link_root_spec p2 c d hc hd hcd D y (hstab2 y)).1]
    exact if_link_char hcd

theorem unionNodes_eq (u : UFState) (fuel : Nat) (a b : Int) :
    unionNodes u fuel a b =
      (if (findRep u.parent fuel a).1 = (findRep (findRep u.parent fuel a).2 fuel b).1 then
        { parent := (findRep (findRep u.parent fuel a).2 fuel b).2, rank := u.rank }
      else if u.rank (findRep u.parent fuel a).1 <
          u.rank (findRep (findRep u.parent fuel a).2 fuel b).1 then
        { parent := Function.update (findRep (findRep u.parent fuel a).2 fuel b).2
            (findRep u.parent fuel a).1 (findRep (findRep u.parent fuel a).2 fuel b).1,
          rank := u.rank }
      else if u.rank (findRep (findRep u.parent fuel a).2 fuel b).1 <
          u.rank (findRep u.parent fuel a).1 then
        { parent := Function.update (findRep (findRep u.parent fuel a).2 fuel b).2
            (findRep (findRep u.parent fuel a).2 fuel b).1 (findRep u.parent fuel a).1,
          rank := u.rank }
      else
        { parent := Function.update (findRep (findRep u.parent fuel a).2 fuel b).2
            (findRep (findRep u.parent fuel a).2 fuel b).1 (findRep u.parent fuel a).1,
          rank := Function.update u.rank (findRep u.parent fuel a).1
            (u.rank (findRep u.parent fuel a).1 + 1) }) := rfl

/-- One union step, characterised at the level of eventual roots: the two
classes of `a` and `b` are merged and nothing else changes, at the cost of one
extra step in the chain-length bound. -/
theorem unionNodes_spec (u : UFState) (fuel D : Nat) (a b : Int)
    (hD : D ≤ fuel) (hstab : ∀ x, isRoot u.parent (iterP u.parent D x)) :
    (∀ x, isRoot (unionNodes u fuel a b).parent
        (iterP (unionNodes u fuel a b).parent (D + 1) x)) ∧
    (∀ x y, iterP (unionNodes u fuel a b).parent (D + 1) x =
        iterP (unionNodes u fuel a b).parent (D + 1) y ↔
      (iterP u.parent D x = iterP u.parent D y ∨
        ((iterP u.parent D x = iterP u.parent D a ∨
          iterP u.parent D x = iterP u.parent D b) ∧
         (iterP u.parent D y = iterP u.parent D a ∨
          iterP u.parent D y = iterP u.parent D b)))) := by
  have hstabF : ∀ x, isRoot u.parent (iterP u.parent fuel x) := by
    intro x
    rw [iterP_stable u.parent (hstab x) fuel hD]
    exact hstab x
  obtain ⟨fa1, fa2⟩ := findRep_spec fuel u.parent a (hstabF a)
  have hra : (findRep u.parent fuel a).1 = iterP u.parent D a := by
    rw [fa1, iterP_stable u.parent (hstab a) fuel hD]
  have hstab1 : ∀ x, isRoot (findRep u.parent fuel a).2
      (iterP (findRep u.parent fuel a).2 fuel x) := fun x => (fa2 fuel x (hstabF x)).2
  obtain ⟨fb1, fb2⟩ := findRep_spec fuel (findRep u.parent fuel a).2 b (hstab1 b)
  have hrb : (findRep (findRep u.parent fuel a).2 fuel b).1 = iterP u.parent D b := by
    rw [fb1, (fa2 fuel b (hstabF b)).1, iterP_stable u.parent (hstab b) fuel hD]
  have pres : ∀ (m : Nat) (y : Int), isRoot u.parent (iterP u.parent m y) →
      iterP (findRep (findRep u.parent fuel a).2 fuel b).2 m y = iterP u.parent m y ∧
      isRoot (findRep (findRep u.parent fuel a).2 fuel b).2
        (iterP (findRep (findRep u.parent fuel a).2 fuel b).2 m y) := by
    intro m y hy
    obtain ⟨e1, r1⟩ := fa2 m y hy
    obtain ⟨e2, r2⟩ := fb2 m y (by rw [e1]; rw [e1] at r1; exact r1)
    rw [e2, e1] at r2 ⊢
    exact ⟨rfl, by rw [← e1, ← e2] at r2 ⊢; exact r2⟩
  have pstab : ∀ x, isRoot (findRep (findRep u.parent fuel a).2 fuel b).2
      (iterP (findRep (findRep u.parent fuel a).2 fuel b).2 D x) :=
    fun x => (pres D x (hstab x)).2
  have pval : ∀ x, iterP (findRep (findRep u.parent fuel a).2 fuel b).2 D x =
      iterP u.parent D x := fun x => (pres D x (hstab x)).1
  by_cases hab : (findRep u.parent fuel a).1 = (findRep (findRep u.parent fuel a).2 fuel b).1
  · -- roots already equal: only compression happened
    have hu : (unionNodes u fuel a b).parent = (findRep (findRep u.parent fuel a).2 fuel b).2 := by
      rw [unionNodes_eq, if_pos hab]
    have hsame : iterP u.parent D a = iterP u.parent D b := by rw [← hra, ← hrb, hab]
    have hstep : ∀ x, iterP (unionNodes u fuel a b).parent (D + 1) x = iterP u.parent D x := by
      intro x
      rw [hu, iterP_stable _ (pstab x) (D + 1) (Nat.le_succ D), pval x]
    constructor
    · intro x
      rw [hu, iterP_stable _ (pstab x) (D + 1) (Nat.le_succ D)]
      exact pstab x
    · intro x y
      rw [hstep x, hstep y]
      constructor
      · exact Or.inl
      · intro h
        rcases h with h | ⟨h1, h2⟩
        · exact h
        · have h1' : iterP u.parent D x = iterP u.parent D a := by
            rcases h1 with h1 | h1
            · exact h1
            · rw [h1, hsame]
          have h2' : iterP u.parent D y = iterP u.parent D a := by
            rcases h2 with h2 | h2
            · exact h2
            · rw [h2, hsame]
          rw [h1', h2']
  · -- distinct roots: one gets linked under the other, by rank
    have hcroot : isRoot (findRep (findRep u.parent fuel a).2 fuel b).2
        (findRep u.parent fuel a).1 := by
      have := (pres D a (hstab a)).2
      rwa [pval a, ← hra] at this
    have hdroot : isRoot (findRep (findRep u.parent fuel a).2 fuel b).2
        (findRep (findRep u.parent fuel a).2 fuel b).1 := by
      have := (pres D b (hstab b)).2
      rwa [pval b, ← hrb] at this
    have htrans : ∀ x, (iterP u.parent D x = (findRep u.parent fuel a).1 ∨
          iterP u.parent D x = (findRep (findRep u.parent fuel a).2 fuel b).1) ↔
        (iterP u.parent D x = iterP u.parent D a ∨
          iterP u.parent D x = iterP u.parent D b) := by
      intro x
      rw [hra, hrb]
    by_cases hr1 : u.rank (findRep u.parent fuel a).1 <
        u.rank (findRep (findRep u.parent fuel a).2 fuel b).1
    · -- rootA linked under rootB
      have hu : (unionNodes u fuel a b).parent =
          Function.update (findRep (findRep u.parent fuel a).2 fuel b).2
            (findRep u.parent fuel a).1 (findRep (findRep u.parent fuel a).2 fuel b).1 := by
        rw [unionNodes_eq, if_neg hab, if_pos hr1]
      obtain ⟨l1, l2⟩ := linked_union_char (findRep (findRep u.parent fuel a).2 fuel b).2 D
        (findRep u.parent fuel a).1 (findRep (findRep u.parent fuel a).2 fuel b).1
        pstab hcroot hdroot hab
      constructor
      · intro x
        rw [hu]
        exact l1 x
      · intro x y
        rw [hu, l2 x y, pval x, pval y, htrans x, htrans y]
    · -- rootB linked under rootA (strictly larger or equal rank)
      have hu : (unionNodes u fuel a b).parent =
          Function.update (findRep (findRep u.parent fuel a).2 fuel b).2
            (findRep (findRep u.parent fuel a).2 fuel b).1 (findRep u.parent fuel a).1 := by
        rw [unionNodes_eq, if_neg hab, if_neg hr1]
        by_cases hr2 : u.rank (findRep (findRep u.parent fuel a).2 fuel b).1 <
            u.rank (findRep u.parent fuel a).1
        · rw [if_pos hr2]
        · rw [if_neg hr2]
      obtain ⟨l1, l2⟩ := linked_union_char (findRep (findRep u.parent fuel a).2 fuel b).2 D
        (findRep (findRep u.parent fuel a).2 fuel b).1 (findRep u.parent fuel a).1
        pstab hdroot hcroot (Ne.symm hab)
      have htrans2 : ∀ x, (iterP u.parent D x =
            (findRep (findRep u.parent fuel a).2 fuel b).1 ∨
          iterP u.parent D x = (findRep u.parent fuel a).1) ↔
        (iterP u.parent D x = iterP u.parent D a ∨
          iterP u.parent D x = iterP u.parent D b) := by
        intro x
        rw [hra, hrb, or_comm]
      constructor
      · intro x
        rw [hu]
        exact l1 x
      · intro x y
        rw [hu, l2 x y, pval x, pval y, htrans2 x, htrans2 y]

theorem eqvGen_congr {r s : Int → Int → Prop} (h : ∀ u v, r u v ↔ s u v) (x y : Int) :
    Relation.EqvGen r x y ↔ Relation.EqvGen s x y :=
  ⟨Relation.EqvGen.mono (fun u v => (h u v).mp),
   Relation.EqvGen.mono (fun u v => (h u v).mpr)⟩

theorem eqvGen_eq_of_not_rel {r : Int → Int → Prop} (hr : ∀ u v, ¬ r u v) :
    ∀ x y, Relation.EqvGen r x y → x = y := by
  intro x y h
  induction h with
  | rel u v huv => exact absurd huv (hr u v)
  | refl u => rfl
  | symm u v _ ih => exact ih.symm
  | trans u v z _ _ ih1 ih2 => exact ih1.trans ih2

theorem wireRel_nil (u v : Int) : ¬ wireRel [] u v := by
  rintro ⟨w, hw, _⟩
  simp at hw

theorem wireRel_append_singleton (t : List Wire) (w : Wire) (u v : Int) :
    wireRel (t ++ [w]) u v ↔ (wireRel t u v ∨ (u = w.nodeA ∧ v = w.nodeB)) := by
  unfold wireRel
  constructor
  · rintro ⟨w2, hw2, h1, h2⟩
    rcases List.mem_append.mp hw2 with hm | hm
    · exact Or.inl ⟨w2, hm, h1, h2⟩
    · rcases List.mem_singleton.mp hm with rfl
      exact Or.inr ⟨h1.symm, h2.symm⟩
  · rintro (⟨w2, hw2, h1, h2⟩ | ⟨h1, h2⟩)
    · exact ⟨w2, List.mem_append.mpr (Or.inl hw2), h1, h2⟩
    · exact ⟨w, List.mem_append.mpr (Or.inr (List.mem_singleton.mpr rfl)), h1.symm, h2.symm⟩

/-- Adjoining the single generator `(a, b)` to a relation merges exactly the
equivalence classes of `a` and `b` in the closure. -/
theorem eqvGen_extend {r : Int → Int → Prop} {a b : Int} (x y : Int) :
    Relation.EqvGen (fun u v => r u v ∨ (u = a ∧ v = b)) x y ↔
      (Relation.EqvGen r x y ∨
       (Relation.EqvGen r x a ∧ Relation.EqvGen r b y) ∨
       (Relation.EqvGen r x b ∧ Relation.EqvGen r a y)) := by
  constructor
  · intro h
    induction h with
    | rel u v huv =>
        rcases huv with huv | ⟨h1, h2⟩
        · exact Or.inl (Relation.EqvGen.rel u v huv)
        · subst h1
          subst h2
          exact Or.inr (Or.inl ⟨Relation.EqvGen.refl u, Relation.EqvGen.refl v⟩)
    | refl u => exact Or.inl (Relation.EqvGen.refl u)
    | symm u v _ ih =>
        rcases ih with h | ⟨h1, h2⟩ | ⟨h1, h2⟩
        · exact Or.inl (Relation.EqvGen.symm u v h)
        · exact Or.inr (Or.inr ⟨Relation.EqvGen.symm b v h2, Relation.EqvGen.symm u a h1⟩)
        · exact Or.inr (Or.inl ⟨Relation.EqvGen.symm a v h2, Relation.EqvGen.symm u b h1⟩)
    | trans u v z _ _ ih1 ih2 =>
        rcases ih1 with h | ⟨h1, h2⟩ | ⟨h1, h2⟩ <;>
          rcases ih2 with g | ⟨g1, g2⟩ | ⟨g1, g2⟩
        · exact Or.inl (Relation.EqvGen.trans u v z h g)
        · exact Or.inr (Or.inl ⟨Relation.EqvGen.trans u v a h g1, g2⟩)
        · exact Or.inr (Or.inr ⟨Relation.EqvGen.trans u v b h g1, g2⟩)
        · exact Or.inr (Or.inl ⟨h1, Relation.EqvGen.trans b v z h2 g⟩)
        · exact Or.inr (Or.inl ⟨h1, g2⟩)
        · exact Or.inl (Relation.EqvGen.trans u a z h1 g2)
        · exact Or.inr (Or.inr ⟨h1, Relation.EqvGen.trans a v z h2 g⟩)
        · exact Or.inl (Relation.EqvGen.trans u b z h1 g2)
        · exact Or.inr (Or.inr ⟨h1, g2⟩)
  · intro h
    have hpair : Relation.EqvGen (fun u v => r u v ∨ (u = a ∧ v = b)) a b :=
      Relation.EqvGen.rel a b (Or.inr ⟨rfl, rfl⟩)
    have hmono : ∀ {p q : Int}, Relation.EqvGen r p q →
        Relation.EqvGen (fun u v => r u v ∨ (u = a ∧ v = b)) p q :=
      fun h2 => Relation.EqvGen.mono (fun u v huv => Or.inl huv) h2
    rcases h with h | ⟨h1, h2⟩ | ⟨h1, h2⟩
    · exact hmono h
    · exact Relation.EqvGen.trans x a y (hmono h1)
        (Relation.EqvGen.trans a b y hpair (hmono h2))
    · exact Relation.EqvGen.trans x b y (hmono h1)
        (Relation.EqvGen.trans b a y (Relation.EqvGen.symm a b hpair) (hmono h2))

theorem eqvGen_pair_char {r : Int → Int → Prop} (a b x y : Int) :
    (Relation.EqvGen r x y ∨
      ((Relation.EqvGen r x a ∨ Relation.EqvGen r x b) ∧
       (Relation.EqvGen r y a ∨ Relation.EqvGen r y b))) ↔
    (Relation.EqvGen r x y ∨
      (Relation.EqvGen r x a ∧ Relation.EqvGen r b y) ∨
      (Relation.EqvGen r x b ∧ Relation.EqvGen r a y)) := by
  constructor
  · intro h
    rcases h with h | ⟨h1, h2⟩
    · exact Or.inl h
    · rcases h1 with h1 | h1 <;> rcases h2 with h2 | h2
      · exact Or.inl (Relation.EqvGen.trans x a y h1 (Relation.EqvGen.symm y a h2))
      · exact Or.inr (Or.inl ⟨h1, Relation.EqvGen.symm y b h2⟩)
      · exact Or.inr (Or.inr ⟨h1, Relation.EqvGen.symm y a h2⟩)
      · exact Or.inl (Relation.EqvGen.trans x b y h1 (Relation.EqvGen.symm y b h2))
  · intro h
    rcases h with h | ⟨h1, h2⟩ | ⟨h1, h2⟩
    · exact Or.inl h
    · exact Or.inr ⟨Or.inl h1, Or.inr (Relation.EqvGen.symm b y h2)⟩
    · exact Or.inr ⟨Or.inr h1, Or.inl (Relation.EqvGen.symm a y h2)⟩

/-- The union loop, run over the remaining wires `rest` after an already
processed prefix `t`: the eventual roots realise exactly the equivalence
closure of the processed wires, and chain lengths stay bounded by the number
of processed wires. -/
theorem buildEquivAux_spec (fuel : Nat) :
    ∀ (rest t : List Wire) (u : UFState),
      t.length + rest.length ≤ fuel →
      (∀ x, isRoot u.parent (iterP u.parent t.length x)) →
      (∀ x y, iterP u.parent t.length x = iterP u.parent t.length y ↔
        Relation.EqvGen (wireRel t) x y) →
      (∀ x, isRoot (buildEquivAux fuel u rest).parent
          (iterP (buildEquivAux fuel u rest).parent (t.length + rest.length) x)) ∧
      (∀ x y, iterP (buildEquivAux fuel u rest).parent (t.length + rest.length) x =
          iterP (buildEquivAux fuel u rest).parent (t.length + rest.length) y ↔
        Relation.EqvGen (wireRel (t ++ rest)) x y) := by
  intro rest
  induction rest with
  | nil =>
      intro t u hle hstab hiff
      constructor
      · intro x
        simpa using hstab x
      · intro x y
        have h := hiff x y
        simpa using h
  | cons w ws ih =>
      intro t u hle hstab hiff
      obtain ⟨s1, s2⟩ := unionNodes_spec u fuel t.length w.nodeA w.nodeB (by omega) hstab
      have hiff1 : ∀ x y,
          iterP (unionNodes u fuel w.nodeA w.nodeB).parent (t.length + 1) x =
            iterP (unionNodes u fuel w.nodeA w.nodeB).parent (t.length + 1) y ↔
          Relation.EqvGen (wireRel (t ++ [w])) x y := by
        intro x y
        rw [s2 x y, hiff x y, hiff x w.nodeA, hiff x w.nodeB, hiff y w.nodeA, hiff y w.nodeB]
        rw [eqvGen_pair_char w.nodeA w.nodeB x y]
        rw [← eqvGen_extend x y]
        exact (eqvGen_congr (fun u v => by rw [wireRel_append_singleton]) x y).symm
      have hstep := ih (t ++ [w]) (unionNodes u fuel w.nodeA w.nodeB)
        (by simp only [List.length_append, List.length_cons, List.length_nil] at hle ⊢; omega)
        (by
          intro x
          have := s1 x
          simpa using this)
        (by
          intro x y
          have := hiff1 x y
          simpa using this)
      have hlen : (t ++ [w]).length + ws.length = t.length + (w :: ws).length := by
        simp
        omega
      have hbuild : buildEquivAux fuel u (w :: ws) =
          buildEquivAux fuel (unionNodes u fuel w.nodeA w.nodeB) ws := rfl
      rw [hbuild]
      constructor
      · intro x
        have := hstep.1 x
        rwa [hlen] at this
      · intro x y
        have := hstep.2 x y
        rw [hlen] at this
        rwa [show (t ++ [w]) ++ ws = t ++ (w :: ws) by simp] at this

/-- Correctness of `buildNodeEquivalenceClasses`: after the build, two nodes
have the same eventual union-find root exactly when they are joined by a chain
of wires, and every parent chain stabilises within `wires.length` steps. -/
theorem buildEquiv_spec (g : CircuitGraph) :
    (∀ x, isRoot (buildNodeEquivalenceClasses g).parent
        (iterP (buildNodeEquivalenceClasses g).parent g.wires.length x)) ∧
    (∀ x y, iterP (buildNodeEquivalenceClasses g).parent g.wires.length x =
        iterP (buildNodeEquivalenceClasses g).parent g.wires.length y ↔
      Relation.EqvGen (wireRel g.wires) x y) := by
  have hstab0 : ∀ x : Int, isRoot (fun z : Int => z) (iterP (fun z : Int => z) 0 x) :=
    fun x => rfl
  have hiff0 : ∀ x y : Int, iterP (fun z : Int => z) 0 x = iterP (fun z : Int => z) 0 y ↔
      Relation.EqvGen (wireRel []) x y := by
    intro x y
    constructor
    · intro h
      have hxy : x = y := h
      rw [hxy]
      exact Relation.EqvGen.refl y
    · intro h
      exact eqvGen_eq_of_not_rel wireRel_nil x y h
  have h := buildEquivAux_spec (ufFuel g) g.wires [] ⟨fun z => z, fun _ => 0⟩
    (by simp [ufFuel]) hstab0 hiff0
  constructor
  · intro x
    have := h.1 x
    simpa [buildNodeEquivalenceClasses] using this
  · intro x y
    have := h.2 x y
    simpa [buildNodeEquivalenceClasses] using this

/-- The id set collected at the top of `MNASolver::buildMatrix`: node-list ids,
all component terminals (`getNode1`/`getNode2` and `getAllNodes`), and all wire
endpoints.  The C++ `std::set<int>` is its sorted duplicate-free list. -/
def allNodeIds (g : CircuitGraph) : List Int :=
  ((g.nodes.map (·.id)) ++
    g.components.flatMap (fun c => [c.node1, c.node2] ++ c.getAllNodes) ++
    g.wires.flatMap (fun w => [w.nodeA, w.nodeB])).dedup.mergeSort (· ≤ ·)

/-- State of the index-assignment loop of `buildMatrix`: the (compressed)
parent map, `nodeToIndex`, `representativeToIndex` and the running index. -/
structure IndexState where
  parent : Int → Int
  nodeToIndex : Int → Option Int
  repToIndex : Int → Option Int
  nextIndex : Int

/-- One iteration of the index-assignment loop: find the node's representative
(ground maps to −1; a new representative claims the next dense index; a seen
representative reuses its index). -/
def assignIndexStep (fuel : Nat) (groundRep : Int) (s : IndexState) (nodeId : Int) :
    IndexState :=
  let fr := findRep s.parent fuel nodeId
  if fr.1 = groundRep then
    { s with parent := fr.2,
             nodeToIndex := fun y => if y = nodeId then some (-1) else s.nodeToIndex y }
  else
    match s.repToIndex fr.1 with
    | some i =>
        { s with parent := fr.2,
                 nodeToIndex := fun y => if y = nodeId then some i else s.nodeToIndex y }
    | none =>
        { parent := fr.2,
          nodeToIndex := fun y => if y = nodeId then some s.nextIndex else s.nodeToIndex y,
          repToIndex := fun r => if r = fr.1 then some s.nextIndex else s.repToIndex r,
          nextIndex := s.nextIndex + 1 }

/-- The node-to-matrix-index map built by `MNASolver::buildMatrix`: equivalence
classes from the wires, the ground representative, then the assignment loop
over all collected node ids. -/
def buildNodeIndex (g : CircuitGraph) : IndexState :=
  let u := buildNodeEquivalenceClasses g
  let fg := findRep u.parent (ufFuel g) g.groundNodeId
  (allNodeIds g).foldl (assignIndexStep (ufFuel g) fg.1)
    { parent := fg.2, nodeToIndex := fun _ => none,
      repToIndex := fun _ => none, nextIndex := 0 }

/-- Invariant of the index-assignment loop, phrased against the parent map
`p0` that entered the loop (whose chains stabilise within `D` steps) and the
ground representative `gr`. -/
def IdxInv (p0 : Int → Int) (D : Nat) (gr : Int) (processed : List Int)
    (s : IndexState) : Prop :=
  (∀ (m : Nat) (y : Int), isRoot p0 (iterP p0 m y) →
      iterP s.parent m y = iterP p0 m y ∧ isRoot s.parent (iterP s.parent m y)) ∧
  (∀ y, y ∉ processed → s.nodeToIndex y = none) ∧
  (∀ y ∈ processed,
      (iterP p0 D y = gr → s.nodeToIndex y = some (-1)) ∧
      (iterP p0 D y ≠ gr → ∃ i, s.repToIndex (iterP p0 D y) = some i ∧
        s.nodeToIndex y = some i)) ∧
  (∀ r i, s.repToIndex r = some i → 0 ≤ i ∧ i < s.nextIndex) ∧
  (∀ r1 r2 i, s.repToIndex r1 = some i → s.repToIndex r2 = some i → r1 = r2) ∧
  0 ≤ s.nextIndex

theorem assignIndexStep_inv (p0 : Int → Int) (D fuel : Nat) (gr : Int)
    (hD : D ≤ fuel) (hstab0 : ∀ x, isRoot p0 (iterP p0 D x))
    (processed : List Int) (s : IndexState)
    (hinv : IdxInv p0 D gr processed s) (z : Int) :
    IdxInv p0 D gr (processed ++ [z]) (assignIndexStep fuel gr s z) := by
  obtain ⟨P1, P2, P3, P4, P5, P6⟩ := hinv
  have hstabF : ∀ x, isRoot p0 (iterP p0 fuel x) := by
    intro x
    rw [iterP_stable p0 (hstab0 x) fuel hD]
    exact hstab0 x
  have hsf : isRoot s.parent (iterP s.parent fuel z) := (P1 fuel z (hstabF z)).2
  obtain ⟨f1, f2⟩ := findRep_spec fuel s.parent z hsf
  have hrep : (findRep s.parent fuel z).1 = iterP p0 D z := by
    rw [f1, (P1 fuel z (hstabF z)).1, iterP_stable p0 (hstab0 z) fuel hD]
  have P1' : ∀ (m : Nat) (y : Int), isRoot p0 (iterP p0 m y) →
      iterP (findRep s.parent fuel z).2 m y = iterP p0 m y ∧
      isRoot (findRep s.parent fuel z).2 (iterP (findRep s.parent fuel z).2 m y) := by
    intro m y hy
    obtain ⟨e1, r1⟩ := P1 m y hy
    obtain ⟨e2, r2⟩ := f2 m y (by rw [e1]; rw [e1] at r1; exact r1)
    constructor
    · rw [e2, e1]
    · exact r2
  have hmem : ∀ y, y ∈ processed ++ [z] ↔ (y ∈ processed ∨ y = z) := by
    intro y
    simp
  unfold assignIndexStep
  by_cases hg : (findRep s.parent fuel z).1 = gr
  · rw [if_pos hg]
    refine ⟨P1', ?_, ?_, P4, P5, P6⟩
    · intro y hy
      rw [hmem y] at hy
      push_neg at hy
      simp only [if_neg hy.2]
      exact P2 y hy.1
    · intro y hy
      rw [hmem y] at hy
      by_cases hyz : y = z
      · subst hyz
        constructor
        · intro _
          simp
        · intro hne
          exact absurd (hrep ▸ hg) hne
      · rcases hy with hy | hy
        · have h3 := P3 y hy
          constructor
          · intro h
            simp only [if_neg hyz]
            exact h3.1 h
          · intro h
            obtain ⟨i, hi1, hi2⟩ := h3.2 h
            exact ⟨i, hi1, by simp only [if_neg hyz]; exact hi2⟩
        · exact absurd hy hyz
  · rw [if_neg hg]
    cases hri : s.repToIndex (findRep s.parent fuel z).1 with
    | some i =>
        simp only [hri]
        refine ⟨P1', ?_, ?_, P4, P5, P6⟩
        · intro y hy
          rw [hmem y] at hy
          push_neg at hy
          simp only [if_neg hy.2]
          exact P2 y hy.1
        · intro y hy
          rw [hmem y] at hy
          by_cases hyz : y = z
          · subst hyz
            constructor
            · intro h
              exact absurd (hrep.trans h) hg
            · intro _
              refine ⟨i, ?_, by simp⟩
              rw [← hrep]
              exact hri
          · rcases hy with hy | hy
            · have h3 := P3 y hy
              constructor
              · intro h
                simp only [if_neg hyz]
                exact h3.1 h
              · intro h
                obtain ⟨j, hj1, hj2⟩ := h3.2 h
                exact ⟨j, hj1, by simp only [if_neg hyz]; exact hj2⟩
            · exact absurd hy hyz
    | none =>
        simp only [hri]
        refine ⟨P1', ?_, ?_, ?_, ?_, by show (0:Int) ≤ s.nextIndex + 1; omega⟩
        · intro y hy
          rw [hmem y] at hy
          push_neg at hy
          simp only [if_neg hy.2]
          exact P2 y hy.1
        · intro y hy
          rw [hmem y] at hy
          by_cases hyz : y = z
          · subst hyz
            constructor
            · intro h
              exact absurd (hrep.trans h) hg
            · intro _
              refine ⟨s.nextIndex, ?_, by simp⟩
              rw [← hrep]
              simp
          · rcases hy with hy | hy
            · have h3 := P3 y hy
              constructor
              · intro h
                simp only [if_neg hyz]
                exact h3.1 h
              · intro h
                obtain ⟨j, hj1, hj2⟩ := h3.2 h
                by_cases hrz : iterP p0 D y = (findRep s.parent fuel z).1
                · rw [hrz] at hj1
                  rw [hj1] at hri
                  exact absurd hri (by simp)
                · exact ⟨j, by simp only [if_neg hrz]; exact hj1,
                    by simp only [if_neg hyz]; exact hj2⟩
            · exact absurd hy hyz
        · intro r i hr
          by_cases hrz : r = (findRep s.parent fuel z).1
          · simp only [if_pos hrz] at hr
            obtain rfl : s.nextIndex = i := by simpa using hr
            exact ⟨P6, by show s.nextIndex < s.nextIndex + 1; omega⟩
          · simp only [if_neg hrz] at hr
            have h4 := P4 r i hr
            exact ⟨h4.1, by show i < s.nextIndex + 1; omega⟩
        · intro r1 r2 i h1 h2
          by_cases hr1 : r1 = (findRep s.parent fuel z).1 <;>
            by_cases hr2 : r2 = (findRep s.parent fuel z).1
          · rw [hr1, hr2]
          · simp only [if_pos hr1] at h1
            simp only [if_neg hr2] at h2
            obtain rfl : s.nextIndex = i := by simpa using h1
            have := P4 r2 s.nextIndex h2
            omega
          · simp only [if_neg hr1] at h1
            simp only [if_pos hr2] at h2
            obtain rfl : s.nextIndex = i := by simpa using h2
            have := P4 r1 s.nextIndex h1
            omega
          · simp only [if_neg hr1] at h1
            simp only [if_neg hr2] at h2
            exact P5 r1 r2 i h1 h2

theorem assignIndices_fold_inv (p0 : Int → Int) (D fuel : Nat) (gr : Int)
    (hD : D ≤ fuel) (hstab0 : ∀ x, isRoot p0 (iterP p0 D x)) :
    ∀ (l processed : List Int) (s : IndexState), IdxInv p0 D gr processed s →
      IdxInv p0 D gr (processed ++ l) (l.foldl (assignIndexStep fuel gr) s) := by
  intro l
  induction l with
  | nil =>
      intro processed s h
      simpa using h
  | cons z rest ih =>
      intro processed s h
      have hstep := assignIndexStep_inv p0 D fuel gr hD hstab0 processed s h z
      have := ih (processed ++ [z]) (assignIndexStep fuel gr s z) hstep
      rwa [List.append_assoc, List.singleton_append] at this

theorem buildNodeIndex_eq (g : CircuitGraph) :
    buildNodeIndex g =
      (allNodeIds g).foldl
        (assignIndexStep (ufFuel g)
          (findRep (buildNodeEquivalenceClasses g).parent (ufFuel g) g.groundNodeId).1)
        { parent := (findRep (buildNodeEquivalenceClasses g).parent (ufFuel g)
            g.groundNodeId).2,
          nodeToIndex := fun _ => none, repToIndex := fun _ => none,
          nextIndex := 0 } := rfl

theorem buildNodeIndex_inv (g : CircuitGraph) :
    IdxInv (buildNodeEquivalenceClasses g).parent g.wires.length
      (findRep (buildNodeEquivalenceClasses g).parent (ufFuel g) g.groundNodeId).1
      (allNodeIds g) (buildNodeIndex g) := by
  obtain ⟨hstab, hiff⟩ := buildEquiv_spec g
  have hD : g.wires.length ≤ ufFuel g := Nat.le_succ _
  have hstabF : ∀ x, isRoot (buildNodeEquivalenceClasses g).parent
      (iterP (buildNodeEquivalenceClasses g).parent (ufFuel g) x) := by
    intro x
    rw [iterP_stable _ (hstab x) (ufFuel g) hD]
    exact hstab x
  obtain ⟨g1, g2⟩ := findRep_spec (ufFuel g) (buildNodeEquivalenceClasses g).parent
    g.groundNodeId (hstabF _)
  have hbase : IdxInv (buildNodeEquivalenceClasses g).parent g.wires.length
      (findRep (buildNodeEquivalenceClasses g).parent (ufFuel g) g.groundNodeId).1 []
      { parent := (findRep (buildNodeEquivalenceClasses g).parent (ufFuel g)
          g.groundNodeId).2,
        nodeToIndex := fun _ => none, repToIndex := fun _ => none, nextIndex := 0 } := by
    refine ⟨g2, fun y _ => rfl, ?_, ?_, ?_, le_refl 0⟩
    · intro y hy
      simp at hy
    · intro r i hr
      simp at hr
    · intro r1 r2 i h1 _
      simp at h1
  have hfold := assignIndices_fold_inv (buildNodeEquivalenceClasses g).parent
    g.wires.length (ufFuel g)
    (findRep (buildNodeEquivalenceClasses g).parent (ufFuel g) g.groundNodeId).1
    hD hstab (allNodeIds g) []
    { parent := (findRep (buildNodeEquivalenceClasses g).parent (ufFuel g)
        g.groundNodeId).2,
      nodeToIndex := fun _ => none, repToIndex := fun _ => none, nextIndex := 0 }
    hbase
  rw [List.nil_append] at hfold
  rw [buildNodeIndex_eq]
  exact hfold

/-- C1: after the MNA matrix rebuild, any two node ids joined directly or
transitively by wires map to the same place — both to ground's sentinel −1
exactly when their class contains the ground node, otherwise both to the same
dense non-negative matrix index — and ids in distinct wire-equivalence classes
always map to distinct places. -/
theorem c1_wire_equivalence_indices (g : CircuitGraph) (x y : Int)
    (hx : x ∈ allNodeIds g) (hy : y ∈ allNodeIds g) :
    (Relation.EqvGen (wireRel g.wires) x y →
      (buildNodeIndex g).nodeToIndex x = (buildNodeIndex g).nodeToIndex y) ∧
    (Relation.EqvGen (wireRel g.wires) x g.groundNodeId ↔
      (buildNodeIndex g).nodeToIndex x = some (-1)) ∧
    (¬ Relation.EqvGen (wireRel g.wires) x g.groundNodeId →
      ∃ i, (buildNodeIndex g).nodeToIndex x = some i ∧ 0 ≤ i) ∧
    (¬ Relation.EqvGen (wireRel g.wires) x y →
      (buildNodeIndex g).nodeToIndex x ≠ (buildNodeIndex g).nodeToIndex y) := by
  obtain ⟨hstab, hiff⟩ := buildEquiv_spec g
  obtain ⟨P1, P2, P3, P4, P5, P6⟩ := buildNodeIndex_inv g
  have hD : g.wires.length ≤ ufFuel g := Nat.le_succ _
  have hgr : (findRep (buildNodeEquivalenceClasses g).parent (ufFuel g) g.groundNodeId).1 =
      iterP (buildNodeEquivalenceClasses g).parent g.wires.length g.groundNodeId := by
    have hstabF : isRoot (buildNodeEquivalenceClasses g).parent
        (iterP (buildNodeEquivalenceClasses g).parent (ufFuel g) g.groundNodeId) := by
      rw [iterP_stable _ (hstab g.groundNodeId) (ufFuel g) hD]
      exact hstab g.groundNodeId
    rw [(findRep_spec (ufFuel g) (buildNodeEquivalenceClasses g).parent g.groundNodeId
      hstabF).1]
    exact iterP_stable _ (hstab g.groundNodeId) (ufFuel g) hD
  have hgx_iff : ∀ z : Int,
      (iterP (buildNodeEquivalenceClasses g).parent g.wires.length z =
        (findRep (buildNodeEquivalenceClasses g).parent (ufFuel g) g.groundNodeId).1) ↔
      Relation.EqvGen (wireRel g.wires) z g.groundNodeId := by
    intro z
    rw [hgr]
    exact hiff z g.groundNodeId
  refine ⟨?_, ⟨?_, ?_⟩, ?_, ?_⟩
  · -- same class → same place
    intro hE
    have hr : iterP (buildNodeEquivalenceClasses g).parent g.wires.length x =
        iterP (buildNodeEquivalenceClasses g).parent g.wires.length y := (hiff x y).mpr hE
    by_cases hgx : iterP (buildNodeEquivalenceClasses g).parent g.wires.length x =
        (findRep (buildNodeEquivalenceClasses g).parent (ufFuel g) g.groundNodeId).1
    · rw [(P3 x hx).1 hgx, (P3 y hy).1 (hr ▸ hgx)]
    · obtain ⟨i, hri, hni⟩ := (P3 x hx).2 hgx
      obtain ⟨j, hrj, hnj⟩ := (P3 y hy).2 (hr ▸ hgx)
      rw [← hr] at hrj
      rw [hri] at hrj
      obtain rfl : i = j := by simpa using hrj
      rw [hni, hnj]
  · -- ground class → −1
    intro hE
    exact (P3 x hx).1 ((hgx_iff x).mpr hE)
  · -- −1 → ground class
    intro hval
    by_contra hnE
    obtain ⟨i, hri, hni⟩ := (P3 x hx).2 (fun h => hnE ((hgx_iff x).mp h))
    rw [hni] at hval
    obtain rfl : i = -1 := by simpa using hval
    have := (P4 _ _ hri).1
    omega
  · -- non-ground class → some non-negative index
    intro hnE
    obtain ⟨i, hri, hni⟩ := (P3 x hx).2 (fun h => hnE ((hgx_iff x).mp h))
    exact ⟨i, hni, (P4 _ _ hri).1⟩
  · -- distinct classes → distinct places
    intro hnE
    have hr : iterP (buildNodeEquivalenceClasses g).parent g.wires.length x ≠
        iterP (buildNodeEquivalenceClasses g).parent g.wires.length y :=
      fun h => hnE ((hiff x y).mp h)
    by_cases hgx : iterP (buildNodeEquivalenceClasses g).parent g.wires.length x =
        (findRep (buildNodeEquivalenceClasses g).parent (ufFuel g) g.groundNodeId).1
    · by_cases hgy : iterP (buildNodeEquivalenceClasses g).parent g.wires.length y =
          (findRep (buildNodeEquivalenceClasses g).parent (ufFuel g) g.groundNodeId).1
      · exact absurd (hgx.trans hgy.symm) hr
      · obtain ⟨j, hrj, hnj⟩ := (P3 y hy).2 hgy
        rw [(P3 x hx).1 hgx, hnj]
        intro h
        obtain rfl : (-1 : Int) = j := by simpa using h
        have := (P4 _ _ hrj).1
        omega
    · by_cases hgy : iterP (buildNodeEquivalenceClasses g).parent g.wires.length y =
          (findRep (buildNodeEquivalenceClasses g).parent (ufFuel g) g.groundNodeId).1
      · obtain ⟨i, hri, hni⟩ := (P3 x hx).2 hgx
        rw [hni, (P3 y hy).1 hgy]
        intro h
        obtain rfl : i = (-1 : Int) := by simpa using h
        have := (P4 _ _ hri).1
        omega
      · obtain ⟨i, hri, hni⟩ := (P3 x hx).2 hgx
        obtain ⟨j, hrj, hnj⟩ := (P3 y hy).2 hgy
        rw [hni, hnj]
        intro h
        obtain rfl : i = j := by simpa using h
        exact hr (P5 _ _ i hri hrj)

theorem mem_allNodeIds_iff (g : CircuitGraph) (a : Int) :
    a ∈ allNodeIds g ↔ a ∈ ((g.nodes.map (·.id)) ++
      g.components.flatMap (fun c => [c.node1, c.node2] ++ c.getAllNodes) ++
      g.wires.flatMap (fun w => [w.nodeA, w.nodeB])) := by
  unfold allNodeIds
  rw [List.mem_mergeSort, List.mem_dedup]

/-- A ground node 0, free nodes 1, 2, 3, and one wire joining 1 and 2. -/
def gC1 : CircuitGraph :=
  { nodes := [⟨0, true⟩, ⟨1, false⟩, ⟨2, false⟩, ⟨3, false⟩],
    components := [], wires := [⟨0, 1, 2⟩], junctions := [],
    nextNodeId := 4, nextComponentId := 0, nextWireId := 1, groundNodeId := 0 }

/-- C1 witness: in `gC1`, the wired nodes 1 and 2 share one matrix slot, the
isolated node 3 receives a non-negative index, and 1 and 3 (distinct classes)
receive distinct slots. -/
theorem c1_witness :
    (buildNodeIndex gC1).nodeToIndex 1 = (buildNodeIndex gC1).nodeToIndex 2 ∧
    (∃ i, (buildNodeIndex gC1).nodeToIndex 3 = some i ∧ 0 ≤ i) ∧
    (buildNodeIndex gC1).nodeToIndex 1 ≠ (buildNodeIndex gC1).nodeToIndex 3 := by
  have hne : ∀ a b : Int,
      iterP (buildNodeEquivalenceClasses gC1).parent gC1.wires.length a ≠
        iterP (buildNodeEquivalenceClasses gC1).parent gC1.wires.length b →
      ¬ Relation.EqvGen (wireRel gC1.wires) a b := by
    intro a b hne h
    exact hne (((buildEquiv_spec gC1).2 a b).mpr h)
  have h12 := c1_wire_equivalence_indices gC1 1 2
    ((mem_allNodeIds_iff gC1 1).mpr (by decide))
    ((mem_allNodeIds_iff gC1 2).mpr (by decide))
  have h33 := c1_wire_equivalence_indices gC1 3 3
    ((mem_allNodeIds_iff gC1 3).mpr (by decide))
    ((mem_allNodeIds_iff gC1 3).mpr (by decide))
  have h13 := c1_wire_equivalence_indices gC1 1 3
    ((mem_allNodeIds_iff gC1 1).mpr (by decide))
    ((mem_allNodeIds_iff gC1 3).mpr (by decide))
  refine ⟨?_, ?_, ?_⟩
  · exact h12.1 (Relation.EqvGen.rel 1 2 ⟨⟨0, 1, 2⟩, by decide, rfl, rfl⟩)
  · exact h33.2.2.1 (hne 3 gC1.groundNodeId (by decide))
  · exact h13.2.2.2 (hne 1 3 (by decide))

/-!
## IEEE-double abstraction

`DVal` tracks the finite/non-finite state of a C++ `double`: a finite rational,
a signed infinity, or NaN.  The arithmetic below follows IEEE-754 propagation
(`∞ − ∞ = NaN`, `0·∞ = NaN`, `x/0 = ±∞` for `x ≠ 0`, `0/0 = NaN`,
`x/∞ = 0`, …).  Rounding of in-range arithmetic and overflow of finite results
are not modelled; ℚ has no negative zero, so `x/0` uses the positive-zero sign.
The claims settled over this type concern only the propagation and the
detection (`std::isfinite`) of non-finite values. -/
inductive DVal
  | fin (q : ℚ)
  | pinf
  | ninf
  | nan
deriving DecidableEq, Repr

namespace DVal

def isFinite : DVal → Bool
  | fin _ => true
  | _ => false

def neg : DVal → DVal
  | fin q => fin (-q)
  | pinf => ninf
  | ninf => pinf
  | nan => nan

def add : DVal → DVal → DVal
  | fin a, fin b => fin (a + b)
  | fin _, pinf => pinf
  | fin _, ninf => ninf
  | pinf, fin _ => pinf
  | ninf, fin _ => ninf
  | pinf, pinf => pinf
  | ninf, ninf => ninf
  | pinf, ninf => nan
  | ninf, pinf => nan
  | nan, _ => nan
  | _, nan => nan

def sub (a b : DVal) : DVal := add a (neg b)

def mul : DVal → DVal → DVal
  | fin a, fin b => fin (a * b)
  | fin a, pinf => if 0 < a then pinf else if a < 0 then ninf else nan
  | fin a, ninf => if 0 < a then ninf else if a < 0 then pinf else nan
  | pinf, fin b => if 0 < b then pinf else if b < 0 then ninf else nan
  | ninf, fin b => if 0 < b then ninf else if b < 0 then pinf else nan
  | pinf, pinf => pinf
  | pinf, ninf => ninf
  | ninf, pinf => ninf
  | ninf, ninf => pinf
  | nan, _ => nan
  | _, nan => nan

def div : DVal → DVal → DVal
  | fin a, fin b =>
      if b = 0 then (if a = 0 then nan else if 0 < a then pinf else ninf)
      else fin (a / b)
  | fin _, pinf => fin 0
  | fin _, ninf => fin 0
  | pinf, fin b => if 0 ≤ b then pinf else ninf
  | ninf, fin b => if 0 ≤ b then ninf else pinf
  | pinf, pinf => nan
  | pinf, ninf => nan
  | ninf, pinf => nan
  | ninf, ninf => nan
  | nan, _ => nan
  | _, nan => nan

end DVal

/-!
## Dense LU decomposition (MNASolver::luDecompose / luSolve)

Matrices are total maps `Nat → Nat → ℚ` read inside the `matrixSize` bound `n`
(mirroring the `std::vector<std::vector<double>>` indexing); the decomposition
branches only compare finite values, so it is stated over ℚ, while forward/back
substitution — where the source detects and clamps non-finite values — is
stated over `DVal`. -/

def Mat : Type := Nat → Nat → ℚ

/-- Threshold of the all-zero-row check (`1e-20`). -/
def zeroRowEps : ℚ := 1 / 10 ^ 20

/-- Near-singular pivot threshold (`1e-15`). -/
def pivotEps : ℚ := 1 / 10 ^ 15

/-- Regularisation value substituted for a near-zero pivot (`1e-12`). -/
def pivotReg : ℚ := 1 / 10 ^ 12

structure LUState where
  lu : Mat
  piv : Nat → Nat
  failed : Bool

/-- Row `i` has some entry of magnitude above `1e-20`. -/
def rowNonZero (n : Nat) (A : Mat) (i : Nat) : Bool :=
  (List.range n).any (fun j => decide (|A i j| > zeroRowEps))

/-- The zero-row pre-check at the top of `luDecompose`. -/
def hasZeroRow (n : Nat) (A : Mat) : Bool :=
  (List.range n).any (fun i => !(rowNonZero n A i))

/-- Partial pivoting: scan rows `k … n−1` keeping the first row of strictly
largest `|A i k|` (`maxVal` starts at 0, `maxRow` at `k`). -/
def pivotSearch (n : Nat) (A : Mat) (k : Nat) : ℚ × Nat :=
  ((List.range n).filter (fun i => decide (k ≤ i))).foldl
    (fun acc i => if |A i k| > acc.1 then (|A i k|, i) else acc) (0, k)

def swapRows (A : Mat) (k m : Nat) : Mat :=
  fun i j => A (if i = k then m else if i = m then k else i) j

def swapPiv (p : Nat → Nat) (k m : Nat) : Nat → Nat :=
  fun i => p (if i = k then m else if i = m then k else i)

def setEntry (A : Mat) (r c : Nat) (v : ℚ) : Mat :=
  fun i j => if i = r ∧ j = c then v else A i j

/-- Gaussian elimination below pivot `k`: each row `i > k` stores its factor in
column `k` and subtracts the scaled pivot row on columns `> k` (the C++ writes
`LU[i][k] /= LU[k][k]` first and then reads the stored factor; both reads see
the same value). -/
def elimStep (n : Nat) (A : Mat) (k : Nat) : Mat :=
  fun i j =>
    if k < i ∧ i < n then
      if j = k then A i k / A k k
      else if k < j ∧ j < n then A i j - (A i k / A k k) * A k j
      else A i j
    else A i j

/-- One iteration of the main `luDecompose` loop: pivot search, row swap,
near-singular regularisation (`|pivot| < 1e-15` becomes `1e-12` and flags the
simulation as failed), then elimination. -/
def luStep (n : Nat) (s : LUState) (k : Nat) : LUState :=
  let m := (pivotSearch n s.lu k).2
  let lu1 := swapRows s.lu k m
  let piv1 := swapPiv s.piv k m
  if |lu1 k k| < pivotEps then
    { lu := elimStep n (setEntry lu1 k k pivotReg) k, piv := piv1, failed := true }
  else
    { lu := elimStep n lu1 k, piv := piv1, failed := s.failed }

/-- `MNASolver::luDecompose`: reject any matrix with an all-zero row (hard
failure: flag set, `false` returned, no elimination), otherwise initialise the
pivot permutation to the identity and run the elimination loop. -/
def luDecompose (n : Nat) (A : Mat) (piv0 : Nat → Nat) (failed0 : Bool) :
    Bool × LUState :=
  if hasZeroRow n A then (false, { lu := A, piv := piv0, failed := true })
  else
    (true, (List.range n).foldl (luStep n) { lu := A, piv := fun i => i, failed := failed0 })

/-- The elimination state after the loop iterations `0 … k−1`. -/
def decompPrefix (n : Nat) (A : Mat) (failed0 : Bool) (k : Nat) : LUState :=
  ((List.range n).take k).foldl (luStep n) { lu := A, piv := fun i => i, failed := failed0 }

/-- Forward substitution `L·y = b` (unit lower triangle, ascending rows), the
first half of `MNASolver::luSolve`. -/
def forwardSubst (n : Nat) (lu : Nat → Nat → DVal) (b : Nat → DVal) : Nat → DVal :=
  (List.range n).foldl
    (fun y i => Function.update y i
      ((List.range n).foldl
        (fun acc j => if j < i then DVal.sub acc (DVal.mul (lu i j) (y j)) else acc)
        (b i)))
    (fun _ => DVal.fin 0)

/-- The value computed for row `i` of the back substitution before the
`std::isfinite` check: `(y i − Σ_{j>i} LU[i][j]·x[j]) / LU[i][i]`. -/
def backSubstRaw (n : Nat) (lu : Nat → Nat → DVal) (y : Nat → DVal)
    (st : (Nat → DVal) × Bool) (i : Nat) : DVal :=
  DVal.div
    ((List.range n).foldl
      (fun acc j => if i < j then DVal.sub acc (DVal.mul (lu i j) (st.1 j)) else acc)
      (y i))
    (lu i i)

/-- One row of the back substitution: compute the raw value; clamp to 0 and set
the failure flag when it is not finite. -/
def backSubstStep (n : Nat) (lu : Nat → Nat → DVal) (y : Nat → DVal)
    (st : (Nat → DVal) × Bool) (i : Nat) : (Nat → DVal) × Bool :=
  if (backSubstRaw n lu y st i).isFinite then
    (Function.update st.1 i (backSubstRaw n lu y st i), st.2)
  else
    (Function.update st.1 i (DVal.fin 0), true)

/-- Back substitution, rows `n−1` down to `0` (only entries written earlier in
this descent are ever read, so the start vector is immaterial). -/
def backSubst (n : Nat) (lu : Nat → Nat → DVal) (y : Nat → DVal) (failed0 : Bool) :
    (Nat → DVal) × Bool :=
  ((List.range n).reverse).foldl (backSubstStep n lu y) (fun _ => DVal.fin 0, failed0)

/-- `MNASolver::luSolve`: permute the RHS by the pivot array, forward
substitution, then back substitution with non-finite containment. -/
def luSolve (n : Nat) (lu : Nat → Nat → DVal) (piv : Nat → Nat) (z : Nat → DVal)
    (failed0 : Bool) : (Nat → DVal) × Bool :=
  backSubst n lu (forwardSubst n lu (fun i => z (piv i))) failed0

/-- The back-substitution state just before row `k` is processed. -/
def bsPrefix (n : Nat) (lu : Nat → Nat → DVal) (y : Nat → DVal) (failed0 : Bool)
    (k : Nat) : (Nat → DVal) × Bool :=
  (((List.range n).reverse).take (n - 1 - k)).foldl (backSubstStep n lu y)
    (fun _ => DVal.fin 0, failed0)

theorem backSubst_fold_finite (n : Nat) (lu : Nat → Nat → DVal) (y : Nat → DVal) :
    ∀ (l : List Nat) (st : (Nat → DVal) × Bool),
      (∀ i, (st.1 i).isFinite = true) →
      ∀ i, ((l.foldl (backSubstStep n lu y) st).1 i).isFinite = true := by
  intro l
  induction l with
  | nil => intro st h i; exact h i
  | cons a rest ih =>
      intro st h i
      apply ih
      intro j
      unfold backSubstStep
      by_cases hf : (backSubstRaw n lu y st a).isFinite
      · rw [if_pos hf]
        dsimp only
        rw [Function.update_apply]
        by_cases hja : j = a
        · rw [if_pos hja]
          exact hf
        · rw [if_neg hja]
          exact h j
      · rw [if_neg hf]
        dsimp only
        rw [Function.update_apply]
        by_cases hja : j = a
        · rw [if_pos hja]
          rfl
        · rw [if_neg hja]
          exact h j

theorem backSubst_fold_untouched (n : Nat) (lu : Nat → Nat → DVal) (y : Nat → DVal) :
    ∀ (l : List Nat) (st : (Nat → DVal) × Bool) (i : Nat), i ∉ l →
      (l.foldl (backSubstStep n lu y) st).1 i = st.1 i := by
  intro l
  induction l with
  | nil => intro st i _; rfl
  | cons a rest ih =>
      intro st i hi
      have hia : i ≠ a := fun h => hi (h ▸ List.mem_cons_self a rest)
      have hirest : i ∉ rest := fun h => hi (List.mem_cons_of_mem a h)
      rw [List.foldl_cons, ih _ i hirest]
      unfold backSubstStep
      by_cases hf : (backSubstRaw n lu y st a).isFinite
      · rw [if_pos hf]
        dsimp only
        rw [Function.update_apply, if_neg hia]
      · rw [if_neg hf]
        dsimp only
        rw [Function.update_apply, if_neg hia]

theorem backSubst_fold_failed (n : Nat) (lu : Nat → Nat → DVal) (y : Nat → DVal) :
    ∀ (l : List Nat) (st : (Nat → DVal) × Bool), st.2 = true →
      (l.foldl (backSubstStep n lu y) st).2 = true := by
  intro l
  induction l with
  | nil => intro st h; exact h
  | cons a rest ih =>
      intro st h
      rw [List.foldl_cons]
      apply ih
      unfold backSubstStep
      by_cases hf : (backSubstRaw n lu y st a).isFinite
      · rw [if_pos hf]
        exact h
      · rw [if_neg hf]

theorem reverse_range_split (n k : Nat) (hk : k < n) :
    (List.range n).reverse =
      ((List.range n).reverse.take (n - 1 - k)) ++
        k :: ((List.range n).reverse.drop (n - k)) := by
  have hlen : (List.range n).reverse.length = n := by simp
  have hidx : n - 1 - k < (List.range n).reverse.length := by omega
  conv_lhs => rw [← List.take_append_drop (n - 1 - k) (List.range n).reverse]
  congr 1
  rw [List.drop_eq_getElem_cons hidx]
  congr 1
  · rw [List.getElem_reverse, List.getElem_range]
    simp only [List.length_range]
    omega
  · congr 1
    omega

theorem mem_reverse_range_drop_lt (n k e : Nat) (hk : k < n)
    (he : e ∈ (List.range n).reverse.drop (n - k)) : e < k := by
  rcases List.mem_iff_getElem.mp he with ⟨p, hp, hval⟩
  rw [List.getElem_drop] at hval
  rw [List.getElem_reverse, List.getElem_range] at hval
  have hlen : ((List.range n).reverse.drop (n - k)).length = k := by
    simp
    omega
  rw [hlen] at hp
  simp at hval
  omega

/-- When the raw back-substitution value at row `k` is non-finite, the final
solution holds exactly 0 there and the failure flag is set. -/
theorem backSubst_clamp (n : Nat) (lu : Nat → Nat → DVal) (y : Nat → DVal)
    (failed0 : Bool) (k : Nat) (hk : k < n)
    (hnf : (backSubstRaw n lu y (bsPrefix n lu y failed0 k) k).isFinite = false) :
    (backSubst n lu y failed0).1 k = DVal.fin 0 ∧
    (backSubst n lu y failed0).2 = true := by
  have hknotin : k ∉ (List.range n).reverse.drop (n - k) := by
    intro hmem
    exact absurd (mem_reverse_range_drop_lt n k k hk hmem) (lt_irrefl k)
  unfold backSubst
  rw [reverse_range_split n k hk, List.foldl_append, List.foldl_cons]
  have hpre : ((List.range n).reverse.take (n - 1 - k)).foldl (backSubstStep n lu y)
      (fun _ => DVal.fin 0, failed0) = bsPrefix n lu y failed0 k := rfl
  rw [hpre]
  have hstep : backSubstStep n lu y (bsPrefix n lu y failed0 k) k =
      (Function.update (bsPrefix n lu y failed0 k).1 k (DVal.fin 0), true) := by
    unfold backSubstStep
    rw [if_neg (by rw [hnf]; simp)]
  rw [hstep]
  constructor
  · rw [backSubst_fold_untouched n lu y _ _ k hknotin]
    dsimp only
    rw [Function.update_apply, if_pos rfl]
  · exact backSubst_fold_failed n lu y _ _ rfl

theorem pivot_fold_ge (A : Mat) (k : Nat) :
    ∀ (l : List Nat) (acc : ℚ × Nat), k ≤ acc.2 → (∀ i ∈ l, k ≤ i) →
      k ≤ (l.foldl (fun acc i => if |A i k| > acc.1 then (|A i k|, i) else acc) acc).2 := by
  intro l
  induction l with
  | nil => intro acc h _; exact h
  | cons a rest ih =>
      intro acc h hall
      rw [List.foldl_cons]
      apply ih
      · by_cases hc : |A a k| > acc.1
        · rw [if_pos hc]
          exact hall a (List.mem_cons_self a rest)
        · rw [if_neg hc]
          exact h
      · intro i hi
        exact hall i (List.mem_cons_of_mem a hi)

theorem pivotSearch_ge (n : Nat) (A : Mat) (k : Nat) : k ≤ (pivotSearch n A k).2 := by
  unfold pivotSearch
  apply pivot_fold_ge A k _ (0, k) (Nat.le_refl k)
  intro i hi
  have := List.of_mem_filter hi
  simpa using this

theorem luStep_preserves_row (n : Nat) (s : LUState) (k kp : Nat) (hlt : kp < k) :
    ∀ j, (luStep n s k).lu kp j = s.lu kp j := by
  intro j
  have hm : k ≤ (pivotSearch n s.lu k).2 := pivotSearch_ge n s.lu k
  have hkp_ne_k : kp ≠ k := Nat.ne_of_lt hlt
  have hkp_ne_m : kp ≠ (pivotSearch n s.lu k).2 := by omega
  have hswap : swapRows s.lu k (pivotSearch n s.lu k).2 kp j = s.lu kp j := by
    unfold swapRows
    rw [if_neg hkp_ne_k, if_neg hkp_ne_m]
  unfold luStep
  by_cases hc : |swapRows s.lu k (pivotSearch n s.lu k).2 k k| < pivotEps
  · rw [if_pos hc]
    show elimStep n (setEntry (swapRows s.lu k (pivotSearch n s.lu k).2) k k pivotReg) k kp j
      = s.lu kp j
    unfold elimStep
    rw [if_neg (by omega : ¬(k < kp ∧ kp < n))]
    unfold setEntry
    rw [if_neg (fun h => hkp_ne_k h.1)]
    exact hswap
  · rw [if_neg hc]
    show elimStep n (swapRows s.lu k (pivotSearch n s.lu k).2) k kp j = s.lu kp j
    unfold elimStep
    rw [if_neg (by omega : ¬(k < kp ∧ kp < n))]
    exact hswap

theorem luStep_failed_mono (n : Nat) (s : LUState) (k : Nat) (h : s.failed = true) :
    (luStep n s k).failed = true := by
  unfold luStep
  by_cases hc : |swapRows s.lu k (pivotSearch n s.lu k).2 k k| < pivotEps
  · rw [if_pos hc]
  · rw [if_neg hc]
    exact h

theorem luStep_small_pivot (n : Nat) (s : LUState) (k : Nat)
    (hc : |swapRows s.lu k (pivotSearch n s.lu k).2 k k| < pivotEps) :
    (luStep n s k).lu k k = pivotReg ∧ (luStep n s k).failed = true := by
  unfold luStep
  rw [if_pos hc]
  constructor
  · show elimStep n (setEntry (swapRows s.lu k (pivotSearch n s.lu k).2) k k pivotReg) k k k
      = pivotReg
    unfold elimStep
    rw [if_neg (by omega : ¬(k < k ∧ k < n))]
    unfold setEntry
    rw [if_pos ⟨rfl, rfl⟩]
  · rfl

theorem decomp_fold_failed (n : Nat) :
    ∀ (l : List Nat) (s : LUState), s.failed = true →
      (l.foldl (luStep n) s).failed = true := by
  intro l
  induction l with
  | nil => intro s h; exact h
  | cons a rest ih =>
      intro s h
      rw [List.foldl_cons]
      exact ih _ (luStep_failed_mono n s a h)

theorem decomp_fold_rows (n : Nat) :
    ∀ (l : List Nat) (s : LUState) (kp : Nat), (∀ e ∈ l, kp < e) →
      ∀ j, (l.foldl (luStep n) s).lu kp j = s.lu kp j := by
  intro l
  induction l with
  | nil => intro s kp _ j; rfl
  | cons a rest ih =>
      intro s kp hall j
      rw [List.foldl_cons,
        ih _ kp (fun e he => hall e (List.mem_cons_of_mem a he)) j,
        luStep_preserves_row n s a kp (hall a (List.mem_cons_self a rest)) j]

theorem range_split (n k : Nat) (hk : k < n) :
    List.range n = (List.range n).take k ++ k :: (List.range n).drop (k + 1) := by
  conv_lhs => rw [← List.take_append_drop k (List.range n)]
  congr 1
  rw [List.drop_eq_getElem_cons (by simpa using hk)]
  simp

theorem mem_range_drop_gt (n k e : Nat) (he : e ∈ (List.range n).drop (k + 1)) :
    k < e := by
  rcases List.mem_iff_getElem.mp he with ⟨i, hi, hval⟩
  rw [List.getElem_drop] at hval
  rw [List.getElem_range] at hval
  omega

/-!
## MNA matrix assembly (MNASolver::buildMatrix) and per-sample step

`G_static`/`z_static` are built over ℚ (build-time code only compares and
combines finite values); the per-sample runtime values (`x`, capacitor state,
the dynamic `z`) are `DVal`, matching where the source can meet non-finite
doubles.  Matrix indices are `Int` with the source's `-1` ground sentinel. -/

/-- `isNonLinear()` overrides: diodes, diode pairs, soft clippers and vacuum
tubes report true, every other component false. -/
def Comp.isNonLinear (c : Comp) : Bool :=
  match c.ctype with
  | CompType.diode => true
  | CompType.diodePair => true
  | CompType.softClipper => true
  | CompType.vacuumTube => true
  | _ => false

def addEntry (G : Int → Int → ℚ) (r c : Int) (v : ℚ) : Int → Int → ℚ :=
  fun i j => if i = r ∧ j = c then G i j + v else G i j

/-- `MNASolver::stampResistorStatic`: conductance `1 / max(resistance, 1e-9)`
added on both diagonals and subtracted off-diagonal, skipping ground (−1). -/
def stampResistorStatic (G : Int → Int → ℚ) (n1 n2 : Int) (resistance : ℚ) :
    Int → Int → ℚ :=
  let g := 1 / max resistance (1 / 10 ^ 9)
  let G1 := if 0 ≤ n1 then addEntry G n1 n1 g else G
  let G2 := if 0 ≤ n2 then addEntry G1 n2 n2 g else G1
  if 0 ≤ n1 ∧ 0 ≤ n2 then addEntry (addEntry G2 n1 n2 (-g)) n2 n1 (-g) else G2

/-- `MNASolver::stampVoltageSourceStatic`: ±1 coupling between the node rows
and the source's branch row, and the source voltage in `z`. -/
def stampVoltageSourceStatic (G : Int → Int → ℚ) (z : Int → ℚ) (n1 n2 : Int)
    (branchIndex : Int) (voltage : ℚ) : (Int → Int → ℚ) × (Int → ℚ) :=
  let G1 := if 0 ≤ n1 then addEntry (addEntry G n1 branchIndex 1) branchIndex n1 1 else G
  let G2 := if 0 ≤ n2 then
      addEntry (addEntry G1 n2 branchIndex (-1)) branchIndex n2 (-1) else G1
  (G2, fun i => if i = branchIndex then voltage else z i)

/-- Mutable state of the component-stamping pass of `buildMatrix`. -/
structure StampState where
  G : Int → Int → ℚ
  z : Int → ℚ
  vsourceIndex : Int
  outputNodeIndex : Int
  cachedCapacitors : List (Int × Int × ℚ)
  cachedAudioInputs : List (Comp × Int)
  cachedNonLinear : List (Int × Int × Int)

/-- One component's stamp (the `switch` in `buildMatrix`).  `n3` of a
potentiometer and the plate of a vacuum tube reuse the record's third-terminal
field. -/
def stampComponent (dt : ℚ) (n2i : Int → Option Int) (matrixSize : Int)
    (st : StampState) (c : Comp) : StampState :=
  let n1 := (n2i c.node1).getD (-1)
  let n2 := (n2i c.node2).getD (-1)
  match c.ctype with
  | CompType.resistor =>
      if n1 ≠ n2 then { st with G := stampResistorStatic st.G n1 n2 c.value } else st
  | CompType.capacitor =>
      if n1 ≠ n2 then
        let geq := 2 * c.value / dt
        { st with G := stampResistorStatic st.G n1 n2 (1 / geq),
                  cachedCapacitors := st.cachedCapacitors ++ [(n1, n2, c.value)] }
      else st
  | CompType.potentiometer =>
      let n3 := (n2i c.plateNode).getD (-1)
      let r1 := max (c.value * c.wiper) (1 / 100)
      let r2 := max (c.value * (1 - c.wiper)) (1 / 100)
      let st1 := if n1 ≠ n3 then { st with G := stampResistorStatic st.G n1 n3 r1 } else st
      if n3 ≠ n2 then { st1 with G := stampResistorStatic st1.G n3 n2 r2 } else st1
  | CompType.cswitch =>
      let resistance : ℚ := if c.closed then 1 / 1000 else 10 ^ 9
      { st with G := stampResistorStatic st.G n1 n2 resistance }
  | CompType.audioInput =>
      if n1 ≠ n2 then
        if matrixSize ≤ st.vsourceIndex then st
        else
          let gz := stampVoltageSourceStatic st.G st.z n1 n2 st.vsourceIndex 0
          { st with G := gz.1, z := gz.2,
                    cachedAudioInputs := st.cachedAudioInputs ++ [(c, st.vsourceIndex)],
                    vsourceIndex := st.vsourceIndex + 1 }
      else st
  | CompType.audioOutput =>
      if st.outputNodeIndex < 0 then
        { st with outputNodeIndex := if 0 ≤ n1 then n1 else n2 }
      else st
  | CompType.vacuumTube =>
      let plate := (n2i c.plateNode).getD (-1)
      { st with cachedNonLinear := st.cachedNonLinear ++ [(n1, n2, plate)] }
  | _ => st

/-- The assembled static system. -/
structure MNABuild where
  nodeToIndex : Int → Option Int
  numNodes : Int
  numVSources : Int
  matrixSize : Int
  Gstatic : Int → Int → ℚ
  zstatic : Int → ℚ
  outputNodeIndex : Int
  cachedCapacitors : List (Int × Int × ℚ)
  cachedAudioInputs : List (Comp × Int)
  cachedNonLinear : List (Int × Int × Int)

/-- The matrix-assembly part of `buildMatrix`, given the node-index map built
beforehand: count surviving voltage sources, stamp every component starting
the branch counter at `numNodes`, then add the `1e-9` shunt to every node
diagonal and the `1e-12` perturbation to every voltage-source diagonal. -/
def mnaAssemble (g : CircuitGraph) (dt : ℚ) (ns : IndexState) : MNABuild :=
  let idx := fun node => (ns.nodeToIndex node).getD (-1)
  let numNodes := ns.nextIndex
  let numVSources : Int := (g.components.filter (fun c =>
    c.ctype == CompType.audioInput && idx c.node1 != idx c.node2)).length
  let matrixSize := numNodes + numVSources
  if matrixSize = 0 then
    { nodeToIndex := ns.nodeToIndex, numNodes := numNodes,
      numVSources := numVSources, matrixSize := 0,
      Gstatic := fun _ _ => 0, zstatic := fun _ => 0, outputNodeIndex := -1,
      cachedCapacitors := [], cachedAudioInputs := [], cachedNonLinear := [] }
  else
    let st := g.components.foldl (stampComponent dt ns.nodeToIndex matrixSize)
      { G := fun _ _ => 0, z := fun _ => 0, vsourceIndex := numNodes,
        outputNodeIndex := -1, cachedCapacitors := [], cachedAudioInputs := [],
        cachedNonLinear := [] }
    { nodeToIndex := ns.nodeToIndex, numNodes := numNodes,
      numVSources := numVSources, matrixSize := matrixSize,
      Gstatic := fun i j =>
        st.G i j +
          (if i = j ∧ 0 ≤ i ∧ i < numNodes then 1 / 10 ^ 9 else 0) +
          (if i = j ∧ numNodes ≤ i ∧ i < matrixSize then 1 / 10 ^ 12 else 0),
      zstatic := st.z, outputNodeIndex := st.outputNodeIndex,
      cachedCapacitors := st.cachedCapacitors,
      cachedAudioInputs := st.cachedAudioInputs,
      cachedNonLinear := st.cachedNonLinear }

/-- `MNASolver::buildMatrix` (node equivalence classes, index map, assembly). -/
def mnaBuildMatrix (g : CircuitGraph) (dt : ℚ) : MNABuild :=
  mnaAssemble g dt (buildNodeIndex g)

/-- Capacitor-state handling at the end of `buildMatrix`: reset to zero only
when the number of cached capacitors changed, otherwise keep the old state. -/
def mnaRebuildCapState (b : MNABuild) (old : List DVal × List DVal) :
    List DVal × List DVal :=
  if old.1.length ≠ b.cachedCapacitors.length then
    (List.replicate b.cachedCapacitors.length (DVal.fin 0),
     List.replicate b.cachedCapacitors.length (DVal.fin 0))
  else old

/-- `MNASolver::stampCurrentSource` on the dynamic RHS. -/
def stampCurrentSourceD (z : Int → DVal) (n1 n2 : Int) (current : DVal) :
    Int → DVal :=
  fun i =>
    if 0 ≤ n1 ∧ i = n1 then DVal.sub (z i) current
    else if 0 ≤ n2 ∧ i = n2 then DVal.add (z i) current
    else z i

/-- The capacitor loop of `MNASolver::step`: for each cached capacitor (in
order, with its positional state), read the capacitor voltage from the current
solution, stamp `ieq = geq·v_prev + i_prev`, and store the next-step state
`(vCap, geq·vCap − ieq)`. -/
def stepCaps (dt : ℚ) (x : Int → DVal) :
    List (Int × Int × ℚ) → (Int → DVal) → List DVal → List DVal →
      (Int → DVal) × List DVal × List DVal
  | [], z, _, _ => (z, [], [])
  | (n1, n2, cap) :: rest, z, v :: vs, cur :: is =>
      let v1 := if 0 ≤ n1 then x n1 else DVal.fin 0
      let v2 := if 0 ≤ n2 then x n2 else DVal.fin 0
      let vCap := DVal.sub v1 v2
      let geq : ℚ := 2 * cap / dt
      let ieq := DVal.add (DVal.mul (DVal.fin geq) v) cur
      let z1 := stampCurrentSourceD z n1 n2 ieq
      let rec1 := stepCaps dt x rest z1 vs is
      (rec1.1, vCap :: rec1.2.1, DVal.sub (DVal.mul (DVal.fin geq) vCap) ieq :: rec1.2.2)
  | _ :: _, z, _, _ => (z, [], [])

/-- Per-sample runtime state of the solver. -/
structure MNARun where
  x : Int → DVal
  capV : List DVal
  capI : List DVal
  failed : Bool

/-- Bridge an `Int`-indexed static matrix into the LU solver's view. -/
def toNatMat (G : Int → Int → ℚ) : Mat := fun i j => G (Int.ofNat i) (Int.ofNat j)

/-- The linear path of `MNASolver::solve` (no nonlinear component): reset the
failure flag, LU-decompose the active matrix and back-substitute with
containment; a hard decomposition failure leaves `x` unchanged. -/
def mnaSolveLinear (b : MNABuild) (z : Int → DVal) (x0 : Int → DVal) :
    (Int → DVal) × Bool :=
  let n := b.matrixSize.toNat
  let dec := luDecompose n (toNatMat b.Gstatic) (fun i => i) false
  if dec.1 then
    let sol := luSolve n (fun i j => DVal.fin (dec.2.lu i j)) dec.2.piv
      (fun i => z (Int.ofNat i)) dec.2.failed
    (fun i => if 0 ≤ i ∧ i < b.matrixSize then sol.1 i.toNat else x0 i, sol.2)
  else (x0, dec.2.failed)

/-- `MNASolver::step`, linear circuits (`solveNonlinear`, reached only when a
nonlinear component is present, involves the transcendental Koren tube model
and is outside the modelled fragment — `none` is returned for it): rebuild `z`
from the static part, stamp the capacitor companion sources, refresh the
audio-input branch voltages, then solve. -/
def mnaStep (g : CircuitGraph) (b : MNABuild) (dt : ℚ) (run : MNARun) :
    Option MNARun :=
  if g.components.any Comp.isNonLinear then none
  else if b.matrixSize = 0 then some run
  else
    let z0 : Int → DVal := fun i => DVal.fin (b.zstatic i)
    let capres := stepCaps dt run.x b.cachedCapacitors z0 run.capV run.capI
    let z1 := capres.1
    let z2 : Int → DVal := fun i =>
      match b.cachedAudioInputs.findSome? (fun ci =>
        if (0 ≤ ci.2 ∧ ci.2 < b.matrixSize) ∧ i = ci.2 then
          some (DVal.fin (ci.1.voltage * ci.1.gain)) else none) with
      | some v => v
      | none => z1 i
    let sol := mnaSolveLinear b z2 run.x
    some { x := sol.1, capV := capres.2.1, capI := capres.2.2, failed := sol.2 }

/-- `MNASolver::getNodeVoltage`: unmapped ids, the ground sentinel and
out-of-range indices all read as 0. -/
def mnaGetNodeVoltage (b : MNABuild) (x : Int → DVal) (nodeId : Int) : DVal :=
  match b.nodeToIndex nodeId with
  | none => DVal.fin 0
  | some idx =>
      if idx < 0 then DVal.fin 0
      else if b.matrixSize ≤ idx then DVal.fin 0
      else x idx

end Circuits

namespace Circuits

/-- A deliberately singular topology: ground plus one node that carries no
conductance at all, probed by the audio output. -/
def gC2 : CircuitGraph :=
  { nodes := [⟨0, true⟩, ⟨1, false⟩],
    components := [{ id := 5, ctype := CompType.audioOutput, node1 := 1, node2 := 0 }],
    wires := [], junctions := [],
    nextNodeId := 2, nextComponentId := 6, nextWireId := 0, groundNodeId := 0 }

theorem gC2_allNodeIds : allNodeIds gC2 = [0, 1] := by
  have h1 : ((gC2.nodes.map (·.id)) ++
      gC2.components.flatMap (fun c => [c.node1, c.node2] ++ c.getAllNodes) ++
      gC2.wires.flatMap (fun w => [w.nodeA, w.nodeB])).dedup = [1, 0] := by decide
  unfold allNodeIds
  rw [h1]
  simp [List.mergeSort]

theorem gC2_size : (mnaBuildMatrix gC2 (1/44100)).matrixSize = 1 := by
  unfold mnaBuildMatrix
  rw [buildNodeIndex_eq, gC2_allNodeIds]
  decide

theorem gC2_out : (mnaBuildMatrix gC2 (1/44100)).outputNodeIndex = 0 := by
  unfold mnaBuildMatrix
  rw [buildNodeIndex_eq, gC2_allNodeIds]
  decide

theorem gC2_G00 : (mnaBuildMatrix gC2 (1/44100)).Gstatic 0 0 = 1 / 10 ^ 9 := by
  unfold mnaBuildMatrix
  rw [buildNodeIndex_eq, gC2_allNodeIds]
  show (0 : ℚ) + 1 / 10 ^ 9 + 0 = 1 / 10 ^ 9
  norm_num

theorem gC2_z0 : (mnaBuildMatrix gC2 (1/44100)).zstatic 0 = 0 := by
  unfold mnaBuildMatrix
  rw [buildNodeIndex_eq, gC2_allNodeIds]
  rfl

-- decompose facts
theorem gC2_nz : hasZeroRow 1 (toNatMat (mnaBuildMatrix gC2 (1/44100)).Gstatic) = false := by
  have hA : toNatMat (mnaBuildMatrix gC2 (1/44100)).Gstatic 0 0 = 1 / 10 ^ 9 := gC2_G00
  simp only [hasZeroRow, rowNonZero, List.range_succ, List.range_zero,
    List.nil_append, List.any_cons, List.any_nil]
  rw [hA, abs_of_pos (by norm_num : (0:ℚ) < 1 / 10 ^ 9)]
  norm_num [zeroRowEps]

end Circuits

namespace Circuits

theorem gC2_caps : (mnaBuildMatrix gC2 (1/44100)).cachedCapacitors = [] := by
  unfold mnaBuildMatrix
  rw [buildNodeIndex_eq, gC2_allNodeIds]
  decide

theorem gC2_ains : (mnaBuildMatrix gC2 (1/44100)).cachedAudioInputs = [] := by
  unfold mnaBuildMatrix
  rw [buildNodeIndex_eq, gC2_allNodeIds]
  decide

theorem gC2_psearch :
    (pivotSearch 1 (toNatMat (mnaBuildMatrix gC2 (1/44100)).Gstatic) 0).2 = 0 := by
  unfold pivotSearch
  have h : ((List.range 1).filter (fun i => decide (0 ≤ i))) = [0] := by decide
  rw [h]
  simp only [List.foldl_cons, List.foldl_nil]
  split <;> rfl

theorem gC2_dec_failed :
    (luDecompose 1 (toNatMat (mnaBuildMatrix gC2 (1/44100)).Gstatic) (fun i => i) false).2.failed
      = false := by
  unfold luDecompose
  rw [gC2_nz]
  simp only [Bool.false_eq_true, if_false, List.range_succ, List.range_zero,
    List.nil_append, List.foldl_cons, List.foldl_nil]
  unfold luStep
  rw [gC2_psearch]
  have hsw : swapRows (toNatMat (mnaBuildMatrix gC2 (1/44100)).Gstatic) 0 0 0 0 =
      (1 : ℚ) / 10 ^ 9 := gC2_G00
  rw [if_neg]
  rw [hsw, abs_of_pos (by norm_num : (0:ℚ) < 1 / 10 ^ 9)]
  norm_num [pivotEps]

end Circuits

namespace Circuits

theorem gC2_dec_fst :
    (luDecompose 1 (toNatMat (mnaBuildMatrix gC2 (1/44100)).Gstatic) (fun i => i) false).1
      = true := by
  unfold luDecompose
  rw [gC2_nz]
  rfl

theorem gC2_dec_lu00 :
    (luDecompose 1 (toNatMat (mnaBuildMatrix gC2 (1/44100)).Gstatic) (fun i => i) false).2.lu 0 0
      = 1 / 10 ^ 9 := by
  unfold luDecompose
  rw [gC2_nz]
  simp only [Bool.false_eq_true, if_false, List.range_succ, List.range_zero,
    List.nil_append, List.foldl_cons, List.foldl_nil]
  unfold luStep
  rw [gC2_psearch]
  rw [if_neg]
  · show elimStep 1 (swapRows (toNatMat (mnaBuildMatrix gC2 (1/44100)).Gstatic) 0 0) 0 0 0
      = 1 / 10 ^ 9
    unfold elimStep
    rw [if_neg (by omega : ¬((0:Nat) < 0 ∧ 0 < 1))]
    exact gC2_G00
  · have hsw : swapRows (toNatMat (mnaBuildMatrix gC2 (1/44100)).Gstatic) 0 0 0 0 =
        (1 : ℚ) / 10 ^ 9 := gC2_G00
    rw [hsw, abs_of_pos (by norm_num : (0:ℚ) < 1 / 10 ^ 9)]
    norm_num [pivotEps]

theorem gC2_dec_piv :
    (luDecompose 1 (toNatMat (mnaBuildMatrix gC2 (1/44100)).Gstatic) (fun i => i) false).2.piv 0
      = 0 := by
  unfold luDecompose
  rw [gC2_nz]
  simp only [Bool.false_eq_true, if_false, List.range_succ, List.range_zero,
    List.nil_append, List.foldl_cons, List.foldl_nil]
  unfold luStep
  rw [gC2_psearch]
  by_cases hc : |swapRows (toNatMat (mnaBuildMatrix gC2 (1/44100)).Gstatic) 0 0 0 0| < pivotEps
  · rw [if_pos hc]
    rfl
  · rw [if_neg hc]
    rfl

end Circuits

namespace Circuits

theorem luSolve_dim_one (lu : Nat → Nat → DVal) (piv : Nat → Nat) (z : Nat → DVal)
    (a c : ℚ) (ha : lu 0 0 = DVal.fin a) (hz : z (piv 0) = DVal.fin c)
    (hne : ¬ a = 0) :
    luSolve 1 lu piv z false
      = (Function.update (fun _ => DVal.fin 0) 0 (DVal.fin (c / a)), false) := by
  have hY : forwardSubst 1 lu (fun i => z (piv i)) 0 = DVal.fin c := by
    unfold forwardSubst
    have hr1 : List.range 1 = [0] := rfl
    rw [hr1]
    simp only [List.foldl_cons, List.foldl_nil]
    rw [Function.update_same]
    rw [if_neg (by omega : ¬(0:Nat) < 0)]
    exact hz
  unfold luSolve backSubst
  have hrev : (List.range 1).reverse = [0] := rfl
  rw [hrev]
  simp only [List.foldl_cons, List.foldl_nil]
  have hraw : backSubstRaw 1 lu (forwardSubst 1 lu (fun i => z (piv i)))
      ((fun _ => DVal.fin 0), false) 0 = DVal.fin (c / a) := by
    unfold backSubstRaw
    have hr1 : List.range 1 = [0] := rfl
    rw [hr1]
    simp only [List.foldl_cons, List.foldl_nil]
    rw [if_neg (by omega : ¬(0:Nat) < 0)]
    rw [hY, ha]
    show (if a = 0 then (if c = 0 then DVal.nan else if 0 < c then DVal.pinf else DVal.ninf)
      else DVal.fin (c / a)) = DVal.fin (c / a)
    rw [if_neg hne]
  unfold backSubstStep
  rw [hraw]
  rw [if_pos (show (DVal.fin (c / a)).isFinite = true from rfl)]

end Circuits

namespace Circuits

theorem gC2_solve :
    (mnaSolveLinear (mnaBuildMatrix gC2 (1/44100))
        (fun i => DVal.fin ((mnaBuildMatrix gC2 (1/44100)).zstatic i))
        (fun _ => DVal.fin 0)).2 = false ∧
    (mnaSolveLinear (mnaBuildMatrix gC2 (1/44100))
        (fun i => DVal.fin ((mnaBuildMatrix gC2 (1/44100)).zstatic i))
        (fun _ => DVal.fin 0)).1 0 = DVal.fin 0 := by
  have ha : (fun i j => DVal.fin
      ((luDecompose 1 (toNatMat (mnaBuildMatrix gC2 (1/44100)).Gstatic)
        (fun i => i) false).2.lu i j)) 0 0 = DVal.fin (1/10^9) := by
    show DVal.fin ((luDecompose 1 (toNatMat (mnaBuildMatrix gC2 (1/44100)).Gstatic)
      (fun i => i) false).2.lu 0 0) = DVal.fin (1/10^9)
    rw [gC2_dec_lu00]
  have hz : (fun i => (fun i => DVal.fin ((mnaBuildMatrix gC2 (1/44100)).zstatic i))
      (Int.ofNat i))
      ((luDecompose 1 (toNatMat (mnaBuildMatrix gC2 (1/44100)).Gstatic)
        (fun i => i) false).2.piv 0) = DVal.fin 0 := by
    show DVal.fin ((mnaBuildMatrix gC2 (1/44100)).zstatic (Int.ofNat
      ((luDecompose 1 (toNatMat (mnaBuildMatrix gC2 (1/44100)).Gstatic)
        (fun i => i) false).2.piv 0))) = DVal.fin 0
    rw [gC2_dec_piv]
    show DVal.fin ((mnaBuildMatrix gC2 (1/44100)).zstatic 0) = DVal.fin 0
    rw [gC2_z0]
  have hlu := luSolve_dim_one
    (fun i j => DVal.fin
      ((luDecompose 1 (toNatMat (mnaBuildMatrix gC2 (1/44100)).Gstatic)
        (fun i => i) false).2.lu i j))
    ((luDecompose 1 (toNatMat (mnaBuildMatrix gC2 (1/44100)).Gstatic)
        (fun i => i) false).2.piv)
    (fun i => (fun i => DVal.fin ((mnaBuildMatrix gC2 (1/44100)).zstatic i))
      (Int.ofNat i))
    (1/10^9) 0 ha hz (by norm_num)
  unfold mnaSolveLinear
  dsimp only
  rw [gC2_size]
  rw [show ((1:Int)).toNat = 1 from rfl]
  rw [gC2_dec_fst]
  rw [if_pos rfl]
  rw [gC2_dec_failed]
  rw [hlu]
  constructor
  · rfl
  · dsimp only
    rw [if_pos (by norm_num : (0:Int) ≤ 0 ∧ (0:Int) < 1)]
    show Function.update (fun _ => DVal.fin 0) 0 (DVal.fin ((0:ℚ) / (1/10^9))) 0 = DVal.fin 0
    rw [Function.update_same, zero_div]

end Circuits

namespace Circuits

/-- C2 (amended): any all-zero row is a hard failure (flag set, `false`
returned, matrix left undecomposed); otherwise the decomposition returns
`true`, and any step whose post-pivoting pivot magnitude is below `1e-15`
leaves `1e-12` on that diagonal of the final factors with the failed flag set;
back substitution always produces finite solution components.  The original
claim's last clause is refuted by `c2cex`: the 1e-9 diagonal shunt makes the
canonical singular topology's pivot pass the `1e-15` test, so the degraded
flag stays `false` (the output is still finite). -/
theorem c2_lu_failure_handling :
    (∀ (n : Nat) (A : Mat) (p0 : Nat → Nat) (f0 : Bool),
        hasZeroRow n A = true →
        luDecompose n A p0 f0 = (false, { lu := A, piv := p0, failed := true })) ∧
    (∀ (n : Nat) (A : Mat) (p0 : Nat → Nat) (f0 : Bool),
        hasZeroRow n A = false → (luDecompose n A p0 f0).1 = true) ∧
    (∀ (n : Nat) (A : Mat) (k : Nat), k < n →
        hasZeroRow n A = false →
        |swapRows (decompPrefix n A false k).lu k
            (pivotSearch n (decompPrefix n A false k).lu k).2 k k| < pivotEps →
        (luDecompose n A (fun i => i) false).2.lu k k = pivotReg ∧
        (luDecompose n A (fun i => i) false).2.failed = true) ∧
    (∀ (n : Nat) (lu : Nat → Nat → DVal) (piv : Nat → Nat) (z : Nat → DVal)
        (f0 : Bool) (i : Nat),
        ((luSolve n lu piv z f0).1 i).isFinite = true) := by
  refine ⟨?_, ?_, ?_, ?_⟩
  · intro n A p0 f0 h
    unfold luDecompose
    rw [if_pos h]
  · intro n A p0 f0 h
    unfold luDecompose
    rw [if_neg (by simp [h])]
  · intro n A k hk hz hp
    have hdec : luDecompose n A (fun i => i) false
        = (true, (List.range n).foldl (luStep n)
            { lu := A, piv := fun i => i, failed := false }) := by
      unfold luDecompose
      rw [if_neg (by simp [hz])]
    have hsplit := range_split n k hk
    have hfold : (List.range n).foldl (luStep n)
        { lu := A, piv := fun i => i, failed := false }
        = ((List.range n).drop (k + 1)).foldl (luStep n)
            (luStep n (decompPrefix n A false k) k) := by
      conv_lhs => rw [hsplit]
      rw [List.foldl_append, List.foldl_cons]
      rfl
    have hstep := luStep_small_pivot n (decompPrefix n A false k) k hp
    constructor
    · rw [hdec]
      show (((List.range n).foldl (luStep n)
        { lu := A, piv := fun i => i, failed := false }).lu) k k = pivotReg
      rw [hfold]
      rw [decomp_fold_rows n ((List.range n).drop (k + 1))
        (luStep n (decompPrefix n A false k) k) k
        (fun e he => mem_range_drop_gt n k e he) k]
      exact hstep.1
    · rw [hdec]
      show (((List.range n).foldl (luStep n)
        { lu := A, piv := fun i => i, failed := false }).failed) = true
      rw [hfold]
      exact decomp_fold_failed n ((List.range n).drop (k + 1))
        (luStep n (decompPrefix n A false k) k) hstep.2
  · intro n lu piv z f0 i
    unfold luSolve backSubst
    exact backSubst_fold_finite n lu (forwardSubst n lu (fun i => z (piv i)))
      ((List.range n).reverse) ((fun _ => DVal.fin 0), f0) (fun j => rfl) i

end Circuits

namespace Circuits

/-- C2 counterexample: `gC2` is the spec's canonical deliberately singular
topology — node 1 carries only an output probe, so its sole diagonal entry is
the artificial `1e-9` shunt.  The pivot `1e-9` passes the `1e-15` test, so the
solve completes with the failed flag still `false` (and a finite zero
solution), refuting the claim that such a topology "sets the degraded flag". -/
theorem c2_counterexample :
    (mnaBuildMatrix gC2 (1/44100)).matrixSize = 1 ∧
    (mnaBuildMatrix gC2 (1/44100)).outputNodeIndex = 0 ∧
    (mnaBuildMatrix gC2 (1/44100)).Gstatic 0 0 = 1 / 10 ^ 9 ∧
    (mnaSolveLinear (mnaBuildMatrix gC2 (1/44100))
        (fun i => DVal.fin ((mnaBuildMatrix gC2 (1/44100)).zstatic i))
        (fun _ => DVal.fin 0)).2 = false ∧
    (mnaSolveLinear (mnaBuildMatrix gC2 (1/44100))
        (fun i => DVal.fin ((mnaBuildMatrix gC2 (1/44100)).zstatic i))
        (fun _ => DVal.fin 0)).1 0 = DVal.fin 0 :=
  ⟨gC2_size, gC2_out, gC2_G00, gC2_solve.1, gC2_solve.2⟩

theorem c2_witness :
    hasZeroRow 1 (fun _ _ => (0:ℚ)) = true ∧
    luDecompose 1 (fun _ _ => (0:ℚ)) (fun i => i) false
      = (false, { lu := fun _ _ => (0:ℚ), piv := fun i => i, failed := true }) ∧
    hasZeroRow 1 (fun _ _ => (1/10^16 : ℚ)) = false ∧
    (luDecompose 1 (fun _ _ => (1/10^16 : ℚ)) (fun i => i) false).1 = true ∧
    (luDecompose 1 (fun _ _ => (1/10^16 : ℚ)) (fun i => i) false).2.lu 0 0 = pivotReg ∧
    (luDecompose 1 (fun _ _ => (1/10^16 : ℚ)) (fun i => i) false).2.failed = true ∧
    ((luSolve 1 (fun _ _ => DVal.nan) (fun i => i) (fun _ => DVal.nan) false).1 0).isFinite
      = true := by
  have hzr : hasZeroRow 1 (fun _ _ => (0:ℚ)) = true := by
    unfold hasZeroRow rowNonZero
    simp only [List.range_succ, List.range_zero, List.nil_append, List.any_cons,
      List.any_nil]
    rw [decide_eq_false (by norm_num [zeroRowEps] : ¬(|(0:ℚ)| > zeroRowEps))]
    rfl
  have hnzr : hasZeroRow 1 (fun _ _ => (1/10^16 : ℚ)) = false := by
    unfold hasZeroRow rowNonZero
    simp only [List.range_succ, List.range_zero, List.nil_append, List.any_cons,
      List.any_nil]
    rw [decide_eq_true (show |(1/10^16 : ℚ)| > zeroRowEps by
      rw [abs_of_pos (show (0:ℚ) < 1/10^16 by norm_num)]
      norm_num [zeroRowEps])]
    rfl
  have hsmall : |swapRows (decompPrefix 1 (fun _ _ => (1/10^16 : ℚ)) false 0).lu 0
      (pivotSearch 1 (decompPrefix 1 (fun _ _ => (1/10^16 : ℚ)) false 0).lu 0).2 0 0|
      < pivotEps := by
    show |(1/10^16 : ℚ)| < pivotEps
    rw [abs_of_pos (show (0:ℚ) < 1/10^16 by norm_num)]
    norm_num [pivotEps]
  have hreg := c2_lu_failure_handling.2.2.1 1 (fun _ _ => (1/10^16 : ℚ)) 0
    (by omega) hnzr hsmall
  exact ⟨hzr,
    c2_lu_failure_handling.1 1 (fun _ _ => (0:ℚ)) (fun i => i) false hzr,
    hnzr,
    c2_lu_failure_handling.2.1 1 (fun _ _ => (1/10^16 : ℚ)) (fun i => i) false hnzr,
    hreg.1, hreg.2,
    c2_lu_failure_handling.2.2.2 1 (fun _ _ => DVal.nan) (fun i => i)
      (fun _ => DVal.nan) false 0⟩

end Circuits

namespace Circuits

theorem stampResistor_diag_clamp (G : Int → Int → ℚ) (n1 n2 : Int) (geq : ℚ)
    (hg : 0 < geq) (h1 : 0 ≤ n1) (h2 : 0 ≤ n2) (hne : n1 ≠ n2) :
    stampResistorStatic G n1 n2 (1 / geq) n1 n1 = G n1 n1 + min geq (10 ^ 9) := by
  have hmax : 1 / max (1 / geq) (1 / 10 ^ 9) = min geq (10 ^ 9) := by
    rcases le_total geq (10 ^ 9) with hle | hle
    · rw [max_eq_left (one_div_le_one_div_of_le hg hle), one_div_one_div,
        min_eq_left hle]
    · rw [max_eq_right (one_div_le_one_div_of_le (by norm_num) hle),
        min_eq_right hle]
      norm_num
  unfold stampResistorStatic
  rw [if_pos h1, if_pos h2, if_pos (And.intro h1 h2)]
  unfold addEntry
  rw [if_neg (fun h => hne h.1)]
  rw [if_neg (fun h => hne h.2)]
  rw [if_neg (fun h => hne h.1)]
  rw [if_pos (And.intro rfl rfl)]
  rw [hmax]

end Circuits

namespace Circuits

theorem stampComponent_capacitor (dt : ℚ) (n2i : Int → Option Int) (ms : Int)
    (st : StampState) (c : Comp) (hct : c.ctype = CompType.capacitor)
    (hne : (n2i c.node1).getD (-1) ≠ (n2i c.node2).getD (-1)) :
    stampComponent dt n2i ms st c
      = { st with
          G := stampResistorStatic st.G ((n2i c.node1).getD (-1))
            ((n2i c.node2).getD (-1)) (1 / (2 * c.value / dt)),
          cachedCapacitors := st.cachedCapacitors ++
            [((n2i c.node1).getD (-1), (n2i c.node2).getD (-1), c.value)] } := by
  unfold stampComponent
  rw [hct]
  dsimp only
  rw [if_pos hne]

theorem stampComponent_capacitor_merged (dt : ℚ) (n2i : Int → Option Int)
    (ms : Int) (st : StampState) (c : Comp) (hct : c.ctype = CompType.capacitor)
    (heq : (n2i c.node1).getD (-1) = (n2i c.node2).getD (-1)) :
    stampComponent dt n2i ms st c = st := by
  unfold stampComponent
  rw [hct]
  dsimp only
  rw [if_neg (fun h => h heq)]

theorem stepCaps_state (dt : ℚ) (x : Int → DVal) :
    ∀ (caps : List (Int × Int × ℚ)) (z : Int → DVal) (vs cur : List DVal),
      vs.length = caps.length → cur.length = caps.length →
      (stepCaps dt x caps z vs cur).2.1
        = caps.map (fun e => DVal.sub (if 0 ≤ e.1 then x e.1 else DVal.fin 0)
            (if 0 ≤ e.2.1 then x e.2.1 else DVal.fin 0)) ∧
      (stepCaps dt x caps z vs cur).2.2
        = List.zipWith (fun (e : Int × Int × ℚ) (p : DVal × DVal) =>
            DVal.sub
              (DVal.mul (DVal.fin (2 * e.2.2 / dt))
                (DVal.sub (if 0 ≤ e.1 then x e.1 else DVal.fin 0)
                  (if 0 ≤ e.2.1 then x e.2.1 else DVal.fin 0)))
              (DVal.add (DVal.mul (DVal.fin (2 * e.2.2 / dt)) p.1) p.2))
            caps (vs.zip cur) := by
  intro caps
  induction caps with
  | nil => intro z vs cur h1 h2; exact ⟨rfl, rfl⟩
  | cons e rest ih =>
      obtain ⟨n1, n2, cap⟩ := e
      intro z vs cur h1 h2
      cases vs with
      | nil => simp at h1
      | cons v vs =>
          cases cur with
          | nil => simp at h2
          | cons i0 cur =>
              simp only [List.length_cons] at h1 h2
              have hr := ih (stampCurrentSourceD z n1 n2
                  (DVal.add (DVal.mul (DVal.fin (2 * cap / dt)) v) i0))
                vs cur (by omega) (by omega)
              constructor
              · show _ :: (stepCaps dt x rest _ vs cur).2.1 = _
                rw [List.map_cons]
                rw [hr.1]
              · show _ :: (stepCaps dt x rest _ vs cur).2.2 = _
                rw [List.zip_cons_cons, List.zipWith_cons_cons]
                rw [hr.2]

theorem mnaRebuildCapState_keep (b : MNABuild) (old : List DVal × List DVal)
    (h : old.1.length = b.cachedCapacitors.length) :
    mnaRebuildCapState b old = old := by
  unfold mnaRebuildCapState
  rw [if_neg (fun hc => hc h)]

theorem mnaRebuildCapState_reset (b : MNABuild) (old : List DVal × List DVal)
    (h : old.1.length ≠ b.cachedCapacitors.length) :
    mnaRebuildCapState b old
      = (List.replicate b.cachedCapacitors.length (DVal.fin 0),
         List.replicate b.cachedCapacitors.length (DVal.fin 0)) := by
  unfold mnaRebuildCapState
  rw [if_pos h]

end Circuits

namespace Circuits

/-- A 1-megafarad capacitor from node 1 to ground: at `dt = 1/44100` its
trapezoidal conductance `2C/dt = 88 200 000 000` exceeds the `1e9` cap that
`stampResistorStatic` enforces through `max(resistance, 1e-9)`. -/
def gC3 : CircuitGraph :=
  { nodes := [⟨0, true⟩, ⟨1, false⟩],
    components := [{ id := 7, ctype := CompType.capacitor, node1 := 1, node2 := 0,
                     value := 1000000 }],
    wires := [], junctions := [],
    nextNodeId := 2, nextComponentId := 8, nextWireId := 0, groundNodeId := 0 }

theorem gC3_allNodeIds : allNodeIds gC3 = [0, 1] := by
  have h1 : ((gC3.nodes.map (·.id)) ++
      gC3.components.flatMap (fun c => [c.node1, c.node2] ++ c.getAllNodes) ++
      gC3.wires.flatMap (fun w => [w.nodeA, w.nodeB])).dedup = [1, 0] := by decide
  unfold allNodeIds
  rw [h1]
  simp [List.mergeSort]

theorem gC3_caps :
    (mnaBuildMatrix gC3 (1/44100)).cachedCapacitors = [(0, -1, 1000000)] := by
  unfold mnaBuildMatrix
  rw [buildNodeIndex_eq, gC3_allNodeIds]
  rfl

theorem gC3_G00 :
    (mnaBuildMatrix gC3 (1/44100)).Gstatic 0 0 = 10 ^ 9 + 1 / 10 ^ 9 := by
  unfold mnaBuildMatrix
  rw [buildNodeIndex_eq, gC3_allNodeIds]
  show (0 : ℚ) + 1 / max (1 / (2 * 1000000 / (1/44100))) (1 / 10 ^ 9) + 1 / 10 ^ 9 + 0
    = 10 ^ 9 + 1 / 10 ^ 9
  rw [max_eq_right (by norm_num : (1:ℚ) / (2 * 1000000 / (1/44100)) ≤ 1 / 10 ^ 9)]
  norm_num

end Circuits

namespace Circuits

/-- C3 (amended): for a capacitor whose terminals map to distinct indices the
stamp is `stampResistorStatic` with resistance `1/(2C/dt)`, whose added
conductance is `min(2C/dt, 1e9)` — clamped, not always `2C/dt` — and the
capacitor is cached; merged terminals stamp nothing.  Each step stamps
`ieq = geq·v_prev + i_prev` from the stored state and then overwrites the
state with `(vCap, geq·vCap − ieq)`, where `vCap` is read from the solution
of the previous solve (the update runs before the current solve).  The state
is kept across rebuilds of equal capacitor count and zeroed otherwise. -/
theorem c3_capacitor_companion :
    (∀ (G : Int → Int → ℚ) (n1 n2 : Int) (geq : ℚ),
        0 < geq → 0 ≤ n1 → 0 ≤ n2 → n1 ≠ n2 →
        stampResistorStatic G n1 n2 (1 / geq) n1 n1
          = G n1 n1 + min geq (10 ^ 9)) ∧
    (∀ (dt : ℚ) (n2i : Int → Option Int) (ms : Int) (st : StampState) (c : Comp),
        c.ctype = CompType.capacitor →
        (n2i c.node1).getD (-1) ≠ (n2i c.node2).getD (-1) →
        stampComponent dt n2i ms st c
          = { st with
              G := stampResistorStatic st.G ((n2i c.node1).getD (-1))
                ((n2i c.node2).getD (-1)) (1 / (2 * c.value / dt)),
              cachedCapacitors := st.cachedCapacitors ++
                [((n2i c.node1).getD (-1), (n2i c.node2).getD (-1), c.value)] }) ∧
    (∀ (dt : ℚ) (n2i : Int → Option Int) (ms : Int) (st : StampState) (c : Comp),
        c.ctype = CompType.capacitor →
        (n2i c.node1).getD (-1) = (n2i c.node2).getD (-1) →
        stampComponent dt n2i ms st c = st) ∧
    (∀ (dt : ℚ) (x : Int → DVal) (caps : List (Int × Int × ℚ)) (z : Int → DVal)
        (vs cur : List DVal),
        vs.length = caps.length → cur.length = caps.length →
        (stepCaps dt x caps z vs cur).2.1
          = caps.map (fun e => DVal.sub (if 0 ≤ e.1 then x e.1 else DVal.fin 0)
              (if 0 ≤ e.2.1 then x e.2.1 else DVal.fin 0)) ∧
        (stepCaps dt x caps z vs cur).2.2
          = List.zipWith (fun (e : Int × Int × ℚ) (p : DVal × DVal) =>
              DVal.sub
                (DVal.mul (DVal.fin (2 * e.2.2 / dt))
                  (DVal.sub (if 0 ≤ e.1 then x e.1 else DVal.fin 0)
                    (if 0 ≤ e.2.1 then x e.2.1 else DVal.fin 0)))
                (DVal.add (DVal.mul (DVal.fin (2 * e.2.2 / dt)) p.1) p.2))
              caps (vs.zip cur)) ∧
    (∀ (b : MNABuild) (old : List DVal × List DVal),
        old.1.length = b.cachedCapacitors.length →
        mnaRebuildCapState b old = old) ∧
    (∀ (b : MNABuild) (old : List DVal × List DVal),
        old.1.length ≠ b.cachedCapacitors.length →
        mnaRebuildCapState b old
          = (List.replicate b.cachedCapacitors.length (DVal.fin 0),
             List.replicate b.cachedCapacitors.length (DVal.fin 0))) :=
  ⟨stampResistor_diag_clamp, stampComponent_capacitor,
   stampComponent_capacitor_merged,
   fun dt x caps z vs cur h1 h2 => stepCaps_state dt x caps z vs cur h1 h2,
   mnaRebuildCapState_keep, mnaRebuildCapState_reset⟩

/-- C3 counterexample: the 1 MF capacitor of `gC3` has `2C/dt = 8.82e10`, yet
the stamped diagonal conductance is the clamp value `1e9` (plus the `1e-9`
node shunt), not `2C/dt`. -/
theorem c3_counterexample :
    (mnaBuildMatrix gC3 (1/44100)).cachedCapacitors = [(0, -1, 1000000)] ∧
    2 * 1000000 / ((1:ℚ)/44100) = 88200000000 ∧
    (mnaBuildMatrix gC3 (1/44100)).Gstatic 0 0 = 10 ^ 9 + 1 / 10 ^ 9 ∧
    ¬ (mnaBuildMatrix gC3 (1/44100)).Gstatic 0 0
        = 2 * 1000000 / ((1:ℚ)/44100) + 1 / 10 ^ 9 := by
  refine ⟨gC3_caps, by norm_num, gC3_G00, ?_⟩
  rw [gC3_G00]
  norm_num

end Circuits

namespace Circuits

/-- A blank stamping state used to exercise the capacitor stamp. -/
def c3st0 : StampState :=
  { G := fun _ _ => 0, z := fun _ => 0, vsourceIndex := 1, outputNodeIndex := -1,
    cachedCapacitors := [], cachedAudioInputs := [], cachedNonLinear := [] }

/-- A unit capacitor between nodes 0 and 1. -/
def c3cap : Comp :=
  { id := 1, ctype := CompType.capacitor, node1 := 0, node2 := 1, value := 1 }

theorem c3_witness :
    stampResistorStatic (fun _ _ => (0:ℚ)) 0 1 (1 / 2) 0 0
      = (fun _ _ => (0:ℚ)) 0 0 + min 2 (10 ^ 9) ∧
    stampComponent 1 (fun n => some n) 2 c3st0 c3cap
      = { c3st0 with
          G := stampResistorStatic c3st0.G 0 1 (1 / (2 * c3cap.value / 1)),
          cachedCapacitors := c3st0.cachedCapacitors ++ [(0, 1, c3cap.value)] } ∧
    stampComponent 1 (fun _ => some 0) 2 c3st0 c3cap = c3st0 ∧
    (stepCaps 1 (fun _ => DVal.fin 1) [((0:Int), (-1:Int), (1:ℚ))]
        (fun _ => DVal.fin 0) [DVal.fin 0] [DVal.fin 0]).2.1
      = [DVal.sub (DVal.fin 1) (DVal.fin 0)] ∧
    (stepCaps 1 (fun _ => DVal.fin 1) [((0:Int), (-1:Int), (1:ℚ))]
        (fun _ => DVal.fin 0) [DVal.fin 0] [DVal.fin 0]).2.2
      = [DVal.sub
          (DVal.mul (DVal.fin (2 * 1 / 1)) (DVal.sub (DVal.fin 1) (DVal.fin 0)))
          (DVal.add (DVal.mul (DVal.fin (2 * 1 / 1)) (DVal.fin 0)) (DVal.fin 0))] ∧
    mnaRebuildCapState (mnaBuildMatrix gC3 (1/44100))
        ([DVal.fin 5], [DVal.fin 7]) = ([DVal.fin 5], [DVal.fin 7]) ∧
    mnaRebuildCapState (mnaBuildMatrix gC3 (1/44100)) ([], [])
      = (List.replicate (mnaBuildMatrix gC3 (1/44100)).cachedCapacitors.length
          (DVal.fin 0),
         List.replicate (mnaBuildMatrix gC3 (1/44100)).cachedCapacitors.length
          (DVal.fin 0)) :=
  ⟨c3_capacitor_companion.1 (fun _ _ => (0:ℚ)) 0 1 2 (by norm_num) (by decide)
      (by decide) (by decide),
   c3_capacitor_companion.2.1 1 (fun n => some n) 2 c3st0 c3cap rfl (by decide),
   c3_capacitor_companion.2.2.1 1 (fun _ => some 0) 2 c3st0 c3cap rfl rfl,
   (c3_capacitor_companion.2.2.2.1 1 (fun _ => DVal.fin 1)
      [((0:Int), (-1:Int), (1:ℚ))] (fun _ => DVal.fin 0)
      [DVal.fin 0] [DVal.fin 0] rfl rfl).1,
   (c3_capacitor_companion.2.2.2.1 1 (fun _ => DVal.fin 1)
      [((0:Int), (-1:Int), (1:ℚ))] (fun _ => DVal.fin 0)
      [DVal.fin 0] [DVal.fin 0] rfl rfl).2,
   c3_capacitor_companion.2.2.2.2.1 (mnaBuildMatrix gC3 (1/44100))
      ([DVal.fin 5], [DVal.fin 7]) (by rw [gC3_caps]; rfl),
   c3_capacitor_companion.2.2.2.2.2 (mnaBuildMatrix gC3 (1/44100)) ([], [])
      (by rw [gC3_caps]; decide)⟩

end Circuits

namespace Circuits

/-!
## WDF core (WDFCore.h) and engine (WDFEngine.cpp)

Trees are the element structures `analyzeCircuitTopology` builds: adapted
leaves (resistor, capacitor, inductor, switch) and two-port series/parallel
adaptors, processed under an ideal-voltage-source root.  Port resistances and
the scattering coefficients are build-time finite doubles, modelled in ℚ; the
waves `a`/`b` and reactive state are per-sample values that can meet
non-finite doubles, modelled in `DVal`.  Nonlinear roots (`WDFTriode`,
`WDFDiode`, …) involve transcendental solvers and stay outside the modelled
fragment. -/

inductive WTree
  | leafR (resistance R : ℚ) (a b : DVal)
  | leafC (R : ℚ) (state a b : DVal)
  | leafL (R : ℚ) (state a b : DVal)
  | leafSwitch (closed : Bool) (R : ℚ) (a b : DVal)
  | series (R g1 g2 : ℚ) (a b : DVal) (c1 c2 : WTree)
  | parallel (R g1 g2 : ℚ) (a b : DVal) (c1 c2 : WTree)
deriving DecidableEq

namespace WTree

/-- `getPortResistance()`. -/
def portRes : WTree → ℚ
  | leafR _ R _ _ => R
  | leafC R _ _ _ => R
  | leafL R _ _ _ => R
  | leafSwitch _ R _ _ => R
  | series R _ _ _ _ _ _ => R
  | parallel R _ _ _ _ _ _ => R

/-- `getReflectedWave()`. -/
def refl : WTree → DVal
  | leafR _ _ _ b => b
  | leafC _ _ _ b => b
  | leafL _ _ _ b => b
  | leafSwitch _ _ _ b => b
  | series _ _ _ _ b _ _ => b
  | parallel _ _ _ _ b _ _ => b

/-- `getIncidentWave()`. -/
def incid : WTree → DVal
  | leafR _ _ a _ => a
  | leafC _ _ a _ => a
  | leafL _ _ a _ => a
  | leafSwitch _ _ a _ => a
  | series _ _ _ a _ _ _ => a
  | parallel _ _ _ a _ _ _ => a

/-- `getVoltage()`: `v = a + b`. -/
def voltage (w : WTree) : DVal := DVal.add w.incid w.refl

/-- `setIncidentWave(wave)`. -/
def setIncident : WTree → DVal → WTree
  | leafR res R _ b, v => leafR res R v b
  | leafC R st _ b, v => leafC R st v b
  | leafL R st _ b, v => leafL R st v b
  | leafSwitch c R _ b, v => leafSwitch c R v b
  | series R g1 g2 _ b c1 c2, v => series R g1 g2 v b c1 c2
  | parallel R g1 g2 _ b c1 c2, v => parallel R g1 g2 v b c1 c2

/-- `propagate()`: leaves reflect per their element law (the capacitor and
inductor shift their unit-delay state), adaptors propagate both children
first and combine their reflected waves. -/
def propagate : WTree → WTree
  | leafR res R a _ =>
      leafR res R a (DVal.mul (DVal.fin ((res - R) / (res + R))) a)
  | leafC R st a _ => leafC R a a st
  | leafL R st a _ => leafL R a a (DVal.neg st)
  | leafSwitch c R a _ => leafSwitch c R a (if c then DVal.neg a else a)
  | series R g1 g2 a _ c1 c2 =>
      let c1p := c1.propagate
      let c2p := c2.propagate
      series R g1 g2 a (DVal.neg (DVal.add c1p.refl c2p.refl)) c1p c2p
  | parallel R g1 g2 a _ c1 c2 =>
      let c1p := c1.propagate
      let c2p := c2.propagate
      parallel R g1 g2 a
        (DVal.add (DVal.mul (DVal.fin g1) c1p.refl)
          (DVal.mul (DVal.fin g2) c2p.refl))
        c1p c2p

/-- The recursive `scatter` lambda of `processWDFTree`, fused with the
`setIncidentWave` call that always precedes it (the root, and each adaptor
for its children, first sets the incident wave and then scatters into the
subtree): each adaptor runs `scatterToChildren()` — reading the freshly set
incident wave and the children's current reflected waves — and recursion
continues into the children; leaves only store the incident wave. -/
def scatterInto : WTree → DVal → WTree
  | leafR res R _ b, v => leafR res R v b
  | leafC R st _ b, v => leafC R st v b
  | leafL R st _ b, v => leafL R st v b
  | leafSwitch c R _ b, v => leafSwitch c R v b
  | series R g1 g2 _ b c1 c2, v =>
      let s := DVal.add (DVal.add v c1.refl) c2.refl
      series R g1 g2 v b
        (c1.scatterInto (DVal.sub v (DVal.mul (DVal.fin g1) s)))
        (c2.scatterInto (DVal.sub v (DVal.mul (DVal.fin g2) s)))
  | parallel R g1 g2 _ b c1 c2, v =>
      let bDiff := DVal.sub (DVal.mul (DVal.fin g1) c1.refl)
        (DVal.mul (DVal.fin g2) c2.refl)
      parallel R g1 g2 v b
        (c1.scatterInto (DVal.add (DVal.sub v bDiff)
          (DVal.mul (DVal.fin g2) (DVal.sub c2.refl c1.refl))))
        (c2.scatterInto (DVal.add (DVal.add v bDiff)
          (DVal.mul (DVal.fin g1) (DVal.sub c1.refl c2.refl))))

/-- `outputElement` as a path into the tree (`false` = child1). -/
def sub : WTree → List Bool → Option WTree
  | t, [] => some t
  | series _ _ _ _ _ c1 c2, d :: p => (if d then c2 else c1).sub p
  | parallel _ _ _ _ _ c1 c2, d :: p => (if d then c2 else c1).sub p
  | _, _ :: _ => none

end WTree

/-- `WDFSeriesAdaptor::connectChildren` + `calculatePortResistance`:
`R = R1 + R2`, `γi = Ri / R`, fresh waves. -/
def mkSeries (c1 c2 : WTree) : WTree :=
  WTree.series (c1.portRes + c2.portRes)
    (c1.portRes / (c1.portRes + c2.portRes))
    (c2.portRes / (c1.portRes + c2.portRes))
    (DVal.fin 0) (DVal.fin 0) c1 c2

/-- `WDFParallelAdaptor::connectChildren` + `calculatePortResistance`:
`R = R1·R2/(R1+R2)`, `γi = R / Ri`, fresh waves. -/
def mkParallel (c1 c2 : WTree) : WTree :=
  WTree.parallel (c1.portRes * c2.portRes / (c1.portRes + c2.portRes))
    (c1.portRes * c2.portRes / (c1.portRes + c2.portRes) / c1.portRes)
    (c1.portRes * c2.portRes / (c1.portRes + c2.portRes) / c2.portRes)
    (DVal.fin 0) (DVal.fin 0) c1 c2

end Circuits

namespace Circuits

/-- WDF engine state after `buildWDFTree` (linear fragment): `tree` is the
element tree hanging off the ideal-voltage-source root (`none` when
`rootElement == nullptr`), `outPath` locates `outputElement` inside it
(`none` when `outputElement == nullptr`). -/
structure WEngine where
  tree : Option WTree
  outPath : Option (List Bool)
  outputNodeId : Int
  outputVoltage : DVal
  simulationFailed : Bool
deriving DecidableEq

/-- The output-voltage read of `processWDFTree`: `outputElement` if present,
else the tree (`rootElement` is non-null there, so the final `else 0.0` arm
is unreachable and the tree fallback applies). -/
def wdfRawOutput (t2 : WTree) (outPath : Option (List Bool)) : DVal :=
  match outPath with
  | some p => match t2.sub p with
    | some el => el.voltage
    | none => t2.voltage
  | none => t2.voltage

/-- One root cycle on the tree (`WDFIdealVoltageSource::propagate` plus the
scatter pass): propagate leaves-to-root, reflect `b = V − a` at the source,
send it back down. -/
def wdfProcessedTree (t : WTree) (V : DVal) : WTree :=
  (t.propagate).scatterInto (DVal.sub V (t.propagate).refl)

/-- `WDFEngine::processWDFTree`: run the tree, read the output element's
voltage, and clamp a non-finite sample to 0 WITHOUT touching the failure
flag. -/
def processWDFTree (e : WEngine) (V : DVal) : WEngine :=
  match e.tree with
  | none => e
  | some t =>
      let t2 := wdfProcessedTree t V
      let raw := wdfRawOutput t2 e.outPath
      { e with tree := some t2,
               outputVoltage := if raw.isFinite then raw else DVal.fin 0 }

/-- `WDFEngine::step` (ideal-voltage-source root): no root or an already
failed simulation short-circuits to silence. -/
def wdfStep (e : WEngine) (inputVoltage : DVal) : WEngine :=
  match e.tree with
  | none => { e with outputVoltage := DVal.fin 0 }
  | some _ =>
      if e.simulationFailed then { e with outputVoltage := DVal.fin 0 }
      else processWDFTree e inputVoltage

/-- `WDFEngine::getNodeVoltage`.  The `nodeToElement` map is abstracted to
the voltage each mapped element would report (`it->second->getVoltage()`). -/
def wdfGetNodeVoltage (outputNodeId : Int) (outputElemPresent : Bool)
    (nodeToElement : Int → Option DVal) (outputVoltage : DVal)
    (nodeId : Int) : DVal :=
  if nodeId < 0 then DVal.fin 0
  else if nodeId = outputNodeId ∧ outputElemPresent = true then outputVoltage
  else match nodeToElement nodeId with
    | some v => v
    | none => if outputElemPresent = true then outputVoltage else DVal.fin 0

end Circuits

namespace Circuits

/-- The passive-component class of `analyzeCircuitTopology` (the `default:`
arm of its classification switch). -/
def wdfPassive (c : Comp) : Bool :=
  match c.ctype with
  | CompType.resistor => true
  | CompType.capacitor => true
  | CompType.inductor => true
  | CompType.potentiometer => true
  | CompType.cswitch => true
  | _ => false

/-- `audioIn`: the classification loop overwrites on every `AudioInput`, so
the last one wins. -/
def wdfAudioIn (g : CircuitGraph) : Option Comp :=
  g.components.foldl (fun acc c =>
    if c.ctype = CompType.audioInput then some c else acc) none

/-- `audioOut`: likewise the last `AudioOutput`. -/
def wdfAudioOut (g : CircuitGraph) : Option Comp :=
  g.components.foldl (fun acc c =>
    if c.ctype = CompType.audioOutput then some c else acc) none

/-- `outputNodeId`: the first audio output's `node1` (the loop breaks), −1
without one. -/
def wdfOutputNodeId (g : CircuitGraph) : Int :=
  (g.components.findSome? (fun c =>
    if c.ctype = CompType.audioOutput then some c.node1 else none)).getD (-1)

/-- One dequeue of the reachability BFS: scan wires then passive components
in order, inserting unvisited far endpoints (each insertion immediately
visible to the later membership checks, as with the C++ `std::set`).
Returns the grown visited list and the newly enqueued nodes. -/
def bfsExpand (wires : List Wire) (passive : List Comp) (cur : Int)
    (visited : List Int) : List Int × List Int :=
  let s1 := wires.foldl (fun (acc : List Int × List Int) w =>
    let acc1 := if w.nodeA = cur ∧ acc.1.contains w.nodeB = false then
        (w.nodeB :: acc.1, acc.2 ++ [w.nodeB]) else acc
    if w.nodeB = cur ∧ acc1.1.contains w.nodeA = false then
        (w.nodeA :: acc1.1, acc1.2 ++ [w.nodeA]) else acc1) (visited, [])
  passive.foldl (fun acc c =>
    let acc1 := if c.node1 = cur ∧ acc.1.contains c.node2 = false then
        (c.node2 :: acc.1, acc.2 ++ [c.node2]) else acc
    if c.node2 = cur ∧ acc1.1.contains c.node1 = false then
        (c.node1 :: acc1.1, acc1.2 ++ [c.node1]) else acc1) s1

/-- The BFS work loop, with explicit fuel: each processed entry burns one
unit, and since every enqueue also inserts a previously unvisited node into
`visited`, at most `1 + 2·|wires| + 2·|passive|` entries are ever queued, so
the fuel chosen in `wdfReach` lets the queue drain completely. -/
def bfsRun (wires : List Wire) (passive : List Comp) :
    Nat → List Int → List Int → List Int
  | 0, visited, _ => visited
  | _ + 1, visited, [] => visited
  | fuel + 1, visited, cur :: rest =>
      let ex := bfsExpand wires passive cur visited
      bfsRun wires passive fuel ex.1 (rest ++ ex.2)

/-- `reachableNodes` after the BFS from `start`. -/
def wdfReach (g : CircuitGraph) (start : Int) : List Int :=
  let passive := g.components.filter wdfPassive
  bfsRun g.wires passive (1 + 2 * g.wires.length + 2 * passive.length)
    [start] [start]

/-- `hasValidPath`: stays false unless both terminals exist; otherwise BFS
membership of the (last) audio output's `node1`. -/
def wdfHasValidPath (g : CircuitGraph) : Bool :=
  match wdfAudioIn g, wdfAudioOut g with
  | some ain, some aout => (wdfReach g ain.node1).contains aout.node1
  | _, _ => false

/-- `createElementForComponent` (passive kinds; `nullptr` — `none` — for the
rest).  Constructors set `R` from the value: resistor `R = resistance`,
capacitor `R = dt/(2C)`, inductor `R = 2L/dt`, potentiometer one resistor of
`max(1, total·wiper)`, switch `1e-12`/`1e12`. -/
def wdfElemFor (sampleRate : ℚ) (c : Comp) : Option WTree :=
  match c.ctype with
  | CompType.resistor =>
      some (WTree.leafR c.value c.value (DVal.fin 0) (DVal.fin 0))
  | CompType.capacitor =>
      some (WTree.leafC ((1 / sampleRate) / (2 * c.value))
        (DVal.fin 0) (DVal.fin 0) (DVal.fin 0))
  | CompType.inductor =>
      some (WTree.leafL (2 * c.value / (1 / sampleRate))
        (DVal.fin 0) (DVal.fin 0) (DVal.fin 0))
  | CompType.potentiometer =>
      some (WTree.leafR (max 1 (c.value * c.wiper)) (max 1 (c.value * c.wiper))
        (DVal.fin 0) (DVal.fin 0))
  | CompType.cswitch =>
      some (WTree.leafSwitch c.closed
        (if c.closed then 1 / 10 ^ 12 else 10 ^ 12) (DVal.fin 0) (DVal.fin 0))
  | _ => none

/-- The adaptor while-loops (`group[0] := adaptor(group[0], group[1])`,
erase): a left fold. -/
def buildGroup (mk : WTree → WTree → WTree) : List WTree → Option WTree
  | [] => none
  | h :: t => some (t.foldl mk h)

/-- `analyzeCircuitTopology` after `buildWDFTree`'s state clear, in the
linear fragment: the result is `none` exactly when a nonlinear root would be
installed (valid path and a nonlinear component present — the tube/diode
root solvers are transcendental and outside the modelled fragment). -/
def wdfAnalyze (g : CircuitGraph) (sampleRate : ℚ) : Option WEngine :=
  if g.components.isEmpty then
    some { tree := none, outPath := none, outputNodeId := -1,
           outputVoltage := DVal.fin 0, simulationFailed := false }
  else match wdfAudioIn g with
  | none =>
      some { tree := none, outPath := none, outputNodeId := -1,
             outputVoltage := DVal.fin 0, simulationFailed := true }
  | some _ =>
      if wdfHasValidPath g = false then
        some { tree := none, outPath := none,
               outputNodeId := wdfOutputNodeId g,
               outputVoltage := DVal.fin 0, simulationFailed := false }
      else if (g.components.filter Comp.isNonLinear).isEmpty = false then none
      else
        let passive := g.components.filter wdfPassive
        let elems := passive.filterMap (wdfElemFor sampleRate)
        let base : WEngine :=
          { tree := none, outPath := none, outputNodeId := wdfOutputNodeId g,
            outputVoltage := DVal.fin 0, simulationFailed := false }
        match elems with
        | [] => some { base with
            tree := some (WTree.leafR 10000 10000 (DVal.fin 0) (DVal.fin 0)),
            outPath := some [] }
        | [e] => some { base with tree := some e, outPath := some [] }
        | [e1, e2] =>
            let groundConnections := (passive.filter (fun c =>
              c.node1 == g.groundNodeId || c.node2 == g.groundNodeId)).length
            if passive.length / 2 < groundConnections then
              some { base with tree := some (mkParallel e1 e2),
                               outPath := some [false] }
            else
              some { base with tree := some (mkSeries e1 e2),
                               outPath := some [] }
        | _ =>
            let pairs := passive.zip elems
            let parTree := buildGroup mkParallel ((pairs.filter (fun pr =>
              pr.1.node1 == g.groundNodeId || pr.1.node2 == g.groundNodeId)).map
                (·.2))
            let serTree := buildGroup mkSeries ((pairs.filter (fun pr =>
              !(pr.1.node1 == g.groundNodeId || pr.1.node2 == g.groundNodeId))).map
                (·.2))
            let treeRoot := match serTree, parTree with
              | some s, some p => some (mkSeries s p)
              | some s, none => some s
              | none, some p => some p
              | none, none => none
            some { base with tree := treeRoot, outPath := some [] }

end Circuits

namespace Circuits

/-- C4: non-finite containment is asymmetric.  In the MNA back substitution a
non-finite row value is clamped to 0 AND the failure flag is set; in the WDF
per-sample processing a non-finite output voltage is clamped to 0 while the
failure flag is never touched. -/
theorem c4_nonfinite_containment :
    (∀ (n : Nat) (lu : Nat → Nat → DVal) (y : Nat → DVal)
        (st : (Nat → DVal) × Bool) (i : Nat),
        (backSubstRaw n lu y st i).isFinite = false →
        backSubstStep n lu y st i
          = (Function.update st.1 i (DVal.fin 0), true)) ∧
    (∀ (e : WEngine) (V : DVal) (t : WTree), e.tree = some t →
        processWDFTree e V
          = { e with
              tree := some (wdfProcessedTree t V),
              outputVoltage :=
                if (wdfRawOutput (wdfProcessedTree t V) e.outPath).isFinite
                then wdfRawOutput (wdfProcessedTree t V) e.outPath
                else DVal.fin 0 }) ∧
    (∀ (e : WEngine) (V : DVal),
        (processWDFTree e V).simulationFailed = e.simulationFailed) := by
  refine ⟨?_, ?_, ?_⟩
  · intro n lu y st i h
    unfold backSubstStep
    rw [h]
    rw [if_neg (by simp : ¬(false = true))]
  · intro e V t ht
    unfold processWDFTree
    rw [ht]
  · intro e V
    cases ht : e.tree with
    | none =>
        unfold processWDFTree
        rw [ht]
    | some t =>
        unfold processWDFTree
        rw [ht]

end Circuits

namespace Circuits

/-- A one-resistor WDF engine used to exercise the per-sample containment. -/
def wEng4 : WEngine :=
  { tree := some (WTree.leafR 1 1 (DVal.fin 0) (DVal.fin 0)),
    outPath := some [], outputNodeId := 3,
    outputVoltage := DVal.fin 0, simulationFailed := false }

theorem c4_witness :
    backSubstStep 1 (fun _ _ => DVal.fin 1) (fun _ => DVal.nan)
        ((fun _ => DVal.fin 0), false) 0
      = (Function.update (fun _ => DVal.fin 0) 0 (DVal.fin 0), true) ∧
    processWDFTree wEng4 DVal.nan
      = { wEng4 with
          tree := some (wdfProcessedTree (WTree.leafR 1 1 (DVal.fin 0)
            (DVal.fin 0)) DVal.nan),
          outputVoltage :=
            if (wdfRawOutput (wdfProcessedTree (WTree.leafR 1 1 (DVal.fin 0)
              (DVal.fin 0)) DVal.nan) wEng4.outPath).isFinite
            then wdfRawOutput (wdfProcessedTree (WTree.leafR 1 1 (DVal.fin 0)
              (DVal.fin 0)) DVal.nan) wEng4.outPath
            else DVal.fin 0 } ∧
    (processWDFTree wEng4 DVal.nan).outputVoltage = DVal.fin 0 ∧
    (processWDFTree wEng4 DVal.nan).simulationFailed = false :=
  ⟨c4_nonfinite_containment.1 1 (fun _ _ => DVal.fin 1) (fun _ => DVal.nan)
      ((fun _ => DVal.fin 0), false) 0 rfl,
   c4_nonfinite_containment.2.1 wEng4 DVal.nan
      (WTree.leafR 1 1 (DVal.fin 0) (DVal.fin 0)) rfl,
   rfl,
   (c4_nonfinite_containment.2.2 wEng4 DVal.nan).trans rfl⟩

end Circuits

namespace Circuits

/-- A 1000 Ω adapted WDF resistor. -/
def wdfR1000 : WTree := WTree.leafR 1000 1000 (DVal.fin 0) (DVal.fin 0)

/-- C5: the two-port adaptors.  Series: port resistance `R1+R2`, reflection
`b = −(b1+b2)`, scattering `ai = a − (Ri/R)·(a+b1+b2)`.  Parallel: port
resistance `R1·R2/(R1+R2)`, reflection `b = (R/R1)·b1 + (R/R2)·b2`.  Two
1000 Ω resistors give 2000 Ω in series and 500 Ω in parallel. -/
theorem c5_adaptors :
    (∀ c1 c2 : WTree, (mkSeries c1 c2).portRes = c1.portRes + c2.portRes) ∧
    (∀ c1 c2 : WTree, (mkParallel c1 c2).portRes
        = c1.portRes * c2.portRes / (c1.portRes + c2.portRes)) ∧
    (∀ (R g1 g2 : ℚ) (a b : DVal) (c1 c2 : WTree),
        (WTree.series R g1 g2 a b c1 c2).propagate
          = WTree.series R g1 g2 a
              (DVal.neg (DVal.add c1.propagate.refl c2.propagate.refl))
              c1.propagate c2.propagate) ∧
    (∀ c1 c2 : WTree,
        (mkParallel c1 c2).propagate
          = WTree.parallel (c1.portRes * c2.portRes / (c1.portRes + c2.portRes))
              (c1.portRes * c2.portRes / (c1.portRes + c2.portRes) / c1.portRes)
              (c1.portRes * c2.portRes / (c1.portRes + c2.portRes) / c2.portRes)
              (DVal.fin 0)
              (DVal.add
                (DVal.mul (DVal.fin (c1.portRes * c2.portRes /
                  (c1.portRes + c2.portRes) / c1.portRes)) c1.propagate.refl)
                (DVal.mul (DVal.fin (c1.portRes * c2.portRes /
                  (c1.portRes + c2.portRes) / c2.portRes)) c2.propagate.refl))
              c1.propagate c2.propagate) ∧
    (∀ (c1 c2 : WTree) (v : DVal),
        (mkSeries c1 c2).scatterInto v
          = WTree.series (c1.portRes + c2.portRes)
              (c1.portRes / (c1.portRes + c2.portRes))
              (c2.portRes / (c1.portRes + c2.portRes)) v (DVal.fin 0)
              (c1.scatterInto (DVal.sub v (DVal.mul
                (DVal.fin (c1.portRes / (c1.portRes + c2.portRes)))
                (DVal.add (DVal.add v c1.refl) c2.refl))))
              (c2.scatterInto (DVal.sub v (DVal.mul
                (DVal.fin (c2.portRes / (c1.portRes + c2.portRes)))
                (DVal.add (DVal.add v c1.refl) c2.refl))))) ∧
    (mkSeries wdfR1000 wdfR1000).portRes = 2000 ∧
    (mkParallel wdfR1000 wdfR1000).portRes = 500 := by
  refine ⟨fun c1 c2 => rfl, fun c1 c2 => rfl, fun R g1 g2 a b c1 c2 => rfl,
    fun c1 c2 => rfl, fun c1 c2 v => rfl, ?_, ?_⟩
  · show (1000 : ℚ) + 1000 = 2000
    norm_num
  · show (1000 : ℚ) * 1000 / (1000 + 1000) = 500
    norm_num

end Circuits

namespace Circuits

/-- C6: with an audio input and an audio output present but the output node
outside the BFS-reachable set of the input node, `analyzeCircuitTopology`
installs no root (`tree = none`, `outputElement = none`), leaves the failure
flag clear, and every subsequent step outputs exactly 0 with the flag still
clear. -/
theorem c6_unreachable_silence (g : CircuitGraph) (sr : ℚ) (ain aout : Comp)
    (hain : wdfAudioIn g = some ain) (haout : wdfAudioOut g = some aout)
    (hreach : (wdfReach g ain.node1).contains aout.node1 = false) :
    wdfAnalyze g sr
      = some { tree := none, outPath := none,
               outputNodeId := wdfOutputNodeId g,
               outputVoltage := DVal.fin 0, simulationFailed := false } ∧
    ∀ V : DVal,
      (wdfStep { tree := none, outPath := none,
                 outputNodeId := wdfOutputNodeId g,
                 outputVoltage := DVal.fin 0, simulationFailed := false } V)
        = { tree := none, outPath := none,
            outputNodeId := wdfOutputNodeId g,
            outputVoltage := DVal.fin 0, simulationFailed := false } := by
  have hne : g.components.isEmpty = false := by
    cases hc : g.components with
    | nil =>
        unfold wdfAudioIn at hain
        rw [hc] at hain
        simp at hain
    | cons a l => rfl
  have hvp : wdfHasValidPath g = false := by
    unfold wdfHasValidPath
    rw [hain, haout]
    exact hreach
  constructor
  · unfold wdfAnalyze
    rw [hne]
    rw [if_neg (by simp : ¬(false = true))]
    rw [hain]
    rw [hvp]
    rw [if_pos rfl]
  · intro V
    rfl

end Circuits

namespace Circuits

/-- Audio input between nodes 1 and 0. -/
def gC6in : Comp := { id := 1, ctype := CompType.audioInput, node1 := 1, node2 := 0 }

/-- Audio output between nodes 2 and 0, with no path from node 1. -/
def gC6out : Comp := { id := 2, ctype := CompType.audioOutput, node1 := 2, node2 := 0 }

/-- Input and output exist but share no wire or component path. -/
def gC6 : CircuitGraph :=
  { nodes := [⟨0, true⟩, ⟨1, false⟩, ⟨2, false⟩],
    components := [gC6in, gC6out],
    wires := [], junctions := [],
    nextNodeId := 3, nextComponentId := 3, nextWireId := 0, groundNodeId := 0 }

theorem c6_witness :
    wdfAnalyze gC6 44100
      = some { tree := none, outPath := none,
               outputNodeId := wdfOutputNodeId gC6,
               outputVoltage := DVal.fin 0, simulationFailed := false } ∧
    (wdfStep { tree := none, outPath := none,
               outputNodeId := wdfOutputNodeId gC6,
               outputVoltage := DVal.fin 0, simulationFailed := false }
        (DVal.fin 3))
      = { tree := none, outPath := none,
          outputNodeId := wdfOutputNodeId gC6,
          outputVoltage := DVal.fin 0, simulationFailed := false } :=
  ⟨(c6_unreachable_silence gC6 44100 gC6in gC6out rfl rfl (by decide)).1,
   (c6_unreachable_silence gC6 44100 gC6in gC6out rfl rfl (by decide)).2
      (DVal.fin 3)⟩

end Circuits

namespace Circuits

/-- C7 (amended): the MNA probe returns 0 for unmapped ids, the ground
sentinel and out-of-range indices.  The WDF probe returns 0 for negative ids
and for unmapped ids when no output element exists; but when an output
element exists, an unmapped non-negative id reads back the current output
voltage instead of 0. -/
theorem c7_get_node_voltage :
    (∀ (b : MNABuild) (x : Int → DVal) (nodeId : Int),
        b.nodeToIndex nodeId = none →
        mnaGetNodeVoltage b x nodeId = DVal.fin 0) ∧
    (∀ (b : MNABuild) (x : Int → DVal) (nodeId idx : Int),
        b.nodeToIndex nodeId = some idx → idx < 0 ∨ b.matrixSize ≤ idx →
        mnaGetNodeVoltage b x nodeId = DVal.fin 0) ∧
    (∀ (oid : Int) (p : Bool) (m : Int → Option DVal) (ov : DVal) (nodeId : Int),
        nodeId < 0 →
        wdfGetNodeVoltage oid p m ov nodeId = DVal.fin 0) ∧
    (∀ (oid : Int) (m : Int → Option DVal) (ov : DVal) (nodeId : Int),
        ¬ nodeId < 0 → m nodeId = none →
        wdfGetNodeVoltage oid false m ov nodeId = DVal.fin 0) ∧
    (∀ (oid : Int) (m : Int → Option DVal) (ov : DVal) (nodeId : Int),
        ¬ nodeId < 0 → m nodeId = none →
        wdfGetNodeVoltage oid true m ov nodeId = ov) := by
  refine ⟨?_, ?_, ?_, ?_, ?_⟩
  · intro b x nodeId h
    unfold mnaGetNodeVoltage
    rw [h]
  · intro b x nodeId idx h hr
    unfold mnaGetNodeVoltage
    rw [h]
    dsimp only
    rcases hr with hr | hr
    · rw [if_pos hr]
    · by_cases hneg : idx < 0
      · rw [if_pos hneg]
      · rw [if_neg hneg, if_pos hr]
  · intro oid p m ov nodeId h
    unfold wdfGetNodeVoltage
    rw [if_pos h]
  · intro oid m ov nodeId h hm
    unfold wdfGetNodeVoltage
    rw [if_neg h, if_neg (by simp : ¬(nodeId = oid ∧ false = true)), hm]
    rw [if_neg (by simp : ¬(false = true))]
  · intro oid m ov nodeId h hm
    unfold wdfGetNodeVoltage
    rw [if_neg h]
    by_cases heq : nodeId = oid
    · rw [if_pos ⟨heq, rfl⟩]
    · rw [if_neg (fun hc => heq hc.1), hm]
      rw [if_pos rfl]

/-- C7 counterexample: with an output element present, probing the unmapped
node 7 returns the current output voltage 5, not 0. -/
theorem c7_counterexample :
    wdfGetNodeVoltage 3 true (fun _ => none) (DVal.fin 5) 7 = DVal.fin 5 ∧
    ¬ wdfGetNodeVoltage 3 true (fun _ => none) (DVal.fin 5) 7 = DVal.fin 0 := by
  constructor
  · rfl
  · intro h
    have h5 : (5 : ℚ) = 0 := DVal.fin.inj h
    norm_num at h5

theorem c7_witness :
    mnaGetNodeVoltage (mnaBuildMatrix gC2 (1/44100)) (fun _ => DVal.fin 9) 99
      = DVal.fin 0 ∧
    mnaGetNodeVoltage (mnaBuildMatrix gC2 (1/44100)) (fun _ => DVal.fin 9) 0
      = DVal.fin 0 ∧
    wdfGetNodeVoltage 3 true (fun _ => none) (DVal.fin 5) (-2) = DVal.fin 0 ∧
    wdfGetNodeVoltage 3 false (fun _ => none) (DVal.fin 5) 7 = DVal.fin 0 ∧
    wdfGetNodeVoltage 3 true (fun _ => none) (DVal.fin 5) 7 = DVal.fin 5 :=
  ⟨c7_get_node_voltage.1 (mnaBuildMatrix gC2 (1/44100)) (fun _ => DVal.fin 9) 99
      (by unfold mnaBuildMatrix; rw [buildNodeIndex_eq, gC2_allNodeIds]; decide),
   c7_get_node_voltage.2.1 (mnaBuildMatrix gC2 (1/44100)) (fun _ => DVal.fin 9) 0
      (-1)
      (by unfold mnaBuildMatrix; rw [buildNodeIndex_eq, gC2_allNodeIds]; decide)
      (Or.inl (by decide)),
   c7_get_node_voltage.2.2.1 3 true (fun _ => none) (DVal.fin 5) (-2) (by decide),
   c7_get_node_voltage.2.2.2.1 3 (fun _ => none) (DVal.fin 5) 7 (by decide) rfl,
   c7_get_node_voltage.2.2.2.2 3 (fun _ => none) (DVal.fin 5) 7 (by decide) rfl⟩

end Circuits
